import Mathlib

/-
Verification of the EV charging simulation model (ev_model).

The Python sources are shallowly embedded: floating point numbers become
rationals, dataclasses become structures, mutation of a dataclass becomes a
function returning the updated structure, numpy arrays and pandas columns
become lists, and datetimes become a day-index plus minutes-of-day record.
-/

namespace EvModel

/-- Modelled from the spec: the module sim_parameters.py is not under src (only
its importers are).  The spec fixes the sampling interval at 30 minutes and
uses it to convert power (kW) to energy (kWh), so the factor is 1/2. -/
def POWER_TO_ENERGY_FACTOR : ℚ := 1 / 2

/-- Embedding of datetime values: a running day index (day 0 is a Monday, so
weekday = dayIndex % 7 matches Python datetime.weekday with Monday = 0) and the
time of day in minutes (Python datetime.time compares lexicographically on
(hour, minute, second); with whole minutes this equals minutes-of-day order). -/
structure SimDateTime where
  dayIndex : ℕ
  minutes : ℕ
deriving DecidableEq, Repr

def SimDateTime.weekday (dt : SimDateTime) : ℕ := dt.dayIndex % 7

/-- Embedding of bricks.Schedule.  Times are minutes of day; the defaults are
8:00 (480) and 17:00 (1020); __post_init__ defaults list_days to Mon-Fri. -/
structure Schedule where
  arrival_time : ℕ := 480
  departure_time : ℕ := 1020
  list_days : List ℕ := [0, 1, 2, 3, 4]
deriving DecidableEq, Repr

/-- Embedding of Schedule.is_plugged. -/
def Schedule.is_plugged (s : Schedule) (current_dt : SimDateTime) : Bool :=
  decide (current_dt.weekday ∈ s.list_days) &&
    (decide (s.arrival_time ≤ current_dt.minutes) &&
      decide (current_dt.minutes ≤ s.departure_time))

/-- Embedding of Schedule.get_plugged_profile. -/
def Schedule.get_plugged_profile (s : Schedule)
    (timesteps : List SimDateTime) : List Bool :=
  timesteps.map (fun temp_dt => s.is_plugged temp_dt)

/-- Embedding of bricks.Battery (field values after construction). -/
structure Battery where
  current_soc : ℚ
  target_soc : ℚ
  battery_size : ℚ
  schedule : Schedule
  battery_losses : ℚ
  initial_soc : ℚ
deriving DecidableEq, Repr

/-- Embedding of the Battery dataclass constructor followed by __post_init__:
values above 1 are clamped to 1 and initial_soc is set to the resulting
current_soc. -/
def mkBattery (current_soc target_soc battery_size : ℚ) (schedule : Schedule)
    (battery_losses : ℚ) : Battery :=
  let target_soc := if target_soc > 1 then 1 else target_soc
  let current_soc := if current_soc > 1 then 1 else current_soc
  { current_soc := current_soc
    target_soc := target_soc
    battery_size := battery_size
    schedule := schedule
    battery_losses := battery_losses
    initial_soc := current_soc }

/-- Embedding of the Battery.current_energy_stored property. -/
def Battery.current_energy_stored (b : Battery) : ℚ :=
  b.battery_size * b.current_soc

/-- Embedding of the Battery.target_energy_stored property. -/
def Battery.target_energy_stored (b : Battery) : ℚ :=
  b.battery_size * b.target_soc

/-- Embedding of the Battery.requested_energy property. -/
def Battery.requested_energy (b : Battery) : ℚ :=
  b.target_energy_stored - b.current_energy_stored

/-- Embedding of Battery.target_charge_achieved. -/
def Battery.target_charge_achieved (b : Battery) : Bool :=
  decide (b.current_soc = b.target_soc)

/-- Embedding of Battery.calculate_losses (mutation becomes a returned copy). -/
def Battery.calculate_losses (b : Battery) : Battery :=
  { b with current_soc := b.current_soc - b.battery_losses }

/-- Embedding of Battery.battery_is_charging; returns the updated battery and
the energy input actually taken. -/
def Battery.battery_is_charging (b : Battery) (energy_input : ℚ) :
    Battery × ℚ :=
  let temp_charge_amount := b.current_soc * b.battery_size + energy_input
  if temp_charge_amount ≤ b.battery_size * b.target_soc then
    ({ b with current_soc := temp_charge_amount / b.battery_size },
      energy_input)
  else
    ({ b with current_soc := b.target_soc },
      b.target_energy_stored - b.current_energy_stored)

/-- Embedding of Battery.reset_current_soc. -/
def Battery.reset_current_soc (b : Battery) : Battery :=
  { b with current_soc := b.initial_soc }

/-- Embedding of Battery.battery_is_plugged. -/
def Battery.battery_is_plugged (b : Battery) (current_dt : SimDateTime)
    (energy_input : ℚ) : Battery × ℚ :=
  if b.schedule.is_plugged current_dt then
    if ¬ b.target_charge_achieved then b.battery_is_charging energy_input
    else (b, 0)
  else (b.reset_current_soc, 0)

/-- Embedding of Battery.run_model: apply losses, then the plugged dispatch. -/
def Battery.run_model (b : Battery) (current_dt : SimDateTime)
    (energy_input : ℚ) : Battery × ℚ :=
  (b.calculate_losses).battery_is_plugged current_dt energy_input

/-- Embedding of the 64-bit wrap-around performed by numpy astype, on the
mathematical integer obtained from the cast. -/
def int64_wrap (x : ℤ) : ℤ := (x + 2 ^ 63) % 2 ^ 64 - 2 ^ 63

/-- Embedding of numpy values.astype with a signed 64-bit integer target on a
float value: truncation toward zero, then the 64-bit wrap. -/
def astype_int64 (q : ℚ) : ℤ :=
  int64_wrap (if 0 ≤ q then ⌊q⌋ else ⌈q⌉)

/-- Embedding of bricks.TimeserieRecorder: the recorded_data dataframe is
modelled by the list of column writes performed on it (most recent first),
each carrying the column name and the int64-cast values. -/
structure TimeserieRecorder where
  batches : List (String × List ℤ) := []
deriving DecidableEq, Repr

/-- Embedding of TimeserieRecorder.record_batch_data: the values are cast with
astype int64 before being stored. -/
def TimeserieRecorder.record_batch_data (r : TimeserieRecorder)
    (values : List ℚ) (col_name : String) : TimeserieRecorder :=
  { batches := (col_name, values.map astype_int64) :: r.batches }

/-- Embedding of vehicles.EV. -/
structure EV where
  name : String
  battery : Battery
  data_recorder : TimeserieRecorder
deriving DecidableEq, Repr

/-- Embedding of the loop body of EV.charging_profile: steps pairs each
timestep with the charger max energy output offered at it; the result is the
final battery together with the per-step rows (soc_arr, energy_input_arr,
plugged_flag_arr). -/
def ev_step_loop (b : Battery) : List (SimDateTime × ℚ) →
    Battery × List (ℚ × ℚ × Bool)
  | [] => (b, [])
  | (charge_timestep, current_charger_output) :: rest =>
      let step := b.run_model charge_timestep current_charger_output
      let tail := ev_step_loop step.1 rest
      (tail.1,
        (step.1.current_soc, step.2,
          step.1.schedule.is_plugged charge_timestep) :: tail.2)

/-- Embedding of EV.charging_profile: run the battery across the timesteps,
record the SOC, ENERGY_INPUT and PLUGGED series, and return the energy input
array (mutation of the EV becomes the returned copy). -/
def EV.charging_profile (ev : EV) (steps : List (SimDateTime × ℚ)) :
    EV × List ℚ :=
  let run := ev_step_loop ev.battery steps
  let soc_arr := run.2.map (fun row => row.1)
  let energy_input_arr := run.2.map (fun row => row.2.1)
  let plugged_flag_arr := run.2.map (fun row => if row.2.2 then (1 : ℚ) else 0)
  let rec1 := ev.data_recorder.record_batch_data soc_arr "SOC"
  let rec2 := rec1.record_batch_data energy_input_arr "ENERGY_INPUT"
  let rec3 := rec2.record_batch_data plugged_flag_arr "PLUGGED"
  ({ ev with battery := run.1, data_recorder := rec3 }, energy_input_arr)

/-- State of charge trace of an EV simulation: the SOC after each step. -/
def socTrace (b : Battery) (steps : List (SimDateTime × ℚ)) : List ℚ :=
  (ev_step_loop b steps).2.map (fun row => row.1)

/-- Invariant carried through a battery simulation: both SOC fields and the
reset value lie in the unit interval, the size is positive and the per-step
loss is zero. -/
def BatInv (b : Battery) : Prop :=
  0 ≤ b.current_soc ∧ b.current_soc ≤ 1 ∧
    0 ≤ b.target_soc ∧ b.target_soc ≤ 1 ∧
    0 ≤ b.initial_soc ∧ b.initial_soc ≤ 1 ∧
    0 < b.battery_size ∧ b.battery_losses = 0

/-- Pointwise body of charger_load_availability_profile: the first np.where
keeps the charger max output unless adding it to the site load would exceed
the import limit, in which case the remaining headroom is used; the second
np.where floors the result at zero. -/
def charger_availability (site_load max_import max_charger_output : ℚ) : ℚ :=
  let charger_max_load :=
    if site_load + max_charger_output > max_import
    then max_import - site_load else max_charger_output
  if charger_max_load < 0 then 0 else charger_max_load

/-- Embedding of controller.charger_load_availability_profile in its
existing_load_demand = None branch (the only one that returns a value): both
np.where calls act elementwise on the aligned series. -/
def charger_load_availability_profile
    (site_load_demand_profile max_import_demand : List ℚ)
    (max_charger_output : ℚ) : List ℚ :=
  List.zipWith
    (fun l m => charger_availability l m max_charger_output)
    site_load_demand_profile max_import_demand

/-- One row of the joined site dataframe handed to the daily optimizer: idx is
the position of the timestamp in the chronological index, dt the timestamp,
site_energy the SITE_ENERGY column (kWh per interval), import_limit the
aligned row of the max_import_demand series (kW), target the OPTIMIZER_TARGET
column. -/
structure TSlot where
  idx : ℕ
  dt : SimDateTime
  site_energy : ℚ
  import_limit : ℚ
  target : ℚ
deriving DecidableEq, Repr

/-- A TSlot together with the CHARGER_LOAD_PROFILE column added by
combine_load_profile and the CUMULATIVE_ENERGY column added by
cumsum_energy_consumed. -/
structure DayRow where
  slot : TSlot
  clp : ℚ
  cum : ℚ
deriving DecidableEq, Repr

/-- Embedding of controller.combine_load_profile: the CHARGER_LOAD_PROFILE
column starts at 0 and, on the rows where the EV's schedule is plugged,
receives the availability computed from the site load (SITE_ENERGY divided by
POWER_TO_ENERGY_FACTOR) and the import limit; the masked numpy assignment is
row-aligned, hence rowwise. -/
def combine_load_profile (sched : Schedule) (max_charger_output : ℚ)
    (day : List TSlot) : List DayRow :=
  day.map (fun s =>
    { slot := s
      clp :=
        if sched.is_plugged s.dt then
          charger_availability (s.site_energy / POWER_TO_ENERGY_FACTOR)
            s.import_limit max_charger_output
        else 0
      cum := 0 })

/-- Running cumulative sums from an accumulator, mirroring pandas cumsum. -/
def cumsumFrom (acc : ℚ) : List ℚ → List ℚ
  | [] => []
  | x :: xs => (acc + x) :: cumsumFrom (acc + x) xs

/-- Embedding of controller.cumsum_energy_consumed applied to the rows already
put in target order.  The sort_values step uses pandas' default quicksort,
which fixes only the ascending target order, never the tie order, so the
theorems quantify over an arbitrary permutation of the rows and the concrete
pipeline below instantiates it with an insertion sort on the target column.
The CUMULATIVE_ENERGY column cumulates CHARGER_LOAD_PROFILE times
POWER_TO_ENERGY_FACTOR. -/
def cumsum_energy_consumed (sorted_rows : List DayRow) : List DayRow :=
  List.zipWith (fun r c => { r with cum := c }) sorted_rows
    (cumsumFrom 0 (sorted_rows.map (fun r => r.clp * POWER_TO_ENERGY_FACTOR)))

/-- Concrete instance of the sort_values step on the target column. -/
def sort_by_target (rows : List DayRow) : List DayRow :=
  List.insertionSort (fun a b => a.slot.target ≤ b.slot.target) rows

/-- Embedding of controller.find_last_index: the number of rows whose
CUMULATIVE_ENERGY is strictly below the required energy, plus one, capped at
the frame length. -/
def find_last_index (rows : List DayRow) (energy_required : ℚ) : ℕ :=
  let last_index :=
    (rows.filter (fun r => r.cum < energy_required)).length + 1
  if last_index > rows.length then rows.length else last_index

/-- Embedding of controller.generate_filter: a boolean mask true exactly on
the first find_last_index positions. -/
def generate_filter (rows : List DayRow) (energy_required : ℚ) : List Bool :=
  (List.range rows.length).map
    (fun i => decide (i < find_last_index rows energy_required))

/-- Loop body of calculate_optimized_charging_profile: walk the filtered
charger-load powers keeping the running total of allocated energy; a slot
whose full energy would push the total past the requirement receives exactly
the remaining deficit (converted back to power), after which the total equals
the requirement. -/
def alloc_loop (energy_required : ℚ) : ℚ → List ℚ → List ℚ
  | _, [] => []
  | total, p :: ps =>
      let temp_energy := p * POWER_TO_ENERGY_FACTOR
      if total + temp_energy > energy_required then
        let clipped := energy_required - total
        clipped / POWER_TO_ENERGY_FACTOR ::
          alloc_loop energy_required (total + clipped) ps
      else
        p :: alloc_loop energy_required (total + temp_energy) ps

/-- Embedding of controller.calculate_optimized_charging_profile: the
CHARGER_LOAD_PROFILE values restricted to the filter (which is true exactly
on a prefix, so the restriction is a take), rewritten by the greedy loop. -/
def calculate_optimized_charging_profile (rows : List DayRow)
    (energy_required : ℚ) : List ℚ :=
  alloc_loop energy_required 0
    ((rows.take (find_last_index rows energy_required)).map (fun r => r.clp))

/-- Embedding of controller.apply_new_charging_profile: write the updated
profile back positionally on the filter prefix, zero every other row, and
restore chronological order by sorting on the index (sort_index; the index
values are distinct in a dataframe day, so any sort kind gives this order). -/
def apply_new_charging_profile (rows : List DayRow) (energy_required : ℚ) :
    List (ℕ × ℚ) :=
  let k := find_last_index rows energy_required
  let upd := calculate_optimized_charging_profile rows energy_required
  let front := List.zipWith (fun r a => (r.slot.idx, a)) (rows.take k) upd
  let back := (rows.drop k).map (fun r => (r.slot.idx, (0 : ℚ)))
  List.insertionSort (fun a b => a.1 ≤ b.1) (front ++ back)

/-- Day pipeline from the rows in ranked order: cumulative column, then the
greedy rewrite and restoration of chronological order. -/
def day_profile_from_sorted (sorted_rows : List DayRow)
    (energy_required : ℚ) : List (ℕ × ℚ) :=
  apply_new_charging_profile (cumsum_energy_consumed sorted_rows)
    energy_required

/-- Embedding of controller.get_charging_profile_for_single_day: combine the
availability profile with the plugged mask, rank by target (concrete
insertion sort instance), cumulate, rewrite greedily and restore
chronological order. -/
def get_charging_profile_for_single_day (day : List TSlot) (sched : Schedule)
    (max_charger_output energy_required : ℚ) : List (ℕ × ℚ) :=
  day_profile_from_sorted
    (sort_by_target (combine_load_profile sched max_charger_output day))
    energy_required

/-- Greedy allocation exactly as the spec words it: walk the ranked slots;
give each slot its full headroom while the running total plus its full energy
does not exceed the requested energy; give the first slot that would overshoot
exactly the remaining deficit; give every later slot zero. -/
def greedy_alloc_spec (energy_required : ℚ) : ℚ → List ℚ → List ℚ
  | _, [] => []
  | total, p :: ps =>
      if total + p * POWER_TO_ENERGY_FACTOR ≤ energy_required then
        p :: greedy_alloc_spec energy_required
          (total + p * POWER_TO_ENERGY_FACTOR) ps
      else
        (energy_required - total) / POWER_TO_ENERGY_FACTOR ::
          ps.map (fun _ => 0)

/-- Embedding of charger.Charger as a heap object (the fields the claims
need): ev_list becomes a list of references into the EV heap, because Python
shares the vehicle objects between the roster and the chargers. -/
structure ChargerObj where
  max_output : ℚ
  ev_refs : List ℕ
  data_recorder : TimeserieRecorder

/-- Explicit heap of mutable Python objects: Charger and EV objects are
aliased and mutated in place in the source, so they live behind numeric
references; next is the first unallocated reference, and fresh objects are
placed at or above it. -/
structure Heap where
  evs : ℕ → EV
  chargers : ℕ → ChargerObj
  next : ℕ

/-- In-place mutation of the EV object behind a reference. -/
def Heap.setEV (h : Heap) (r : ℕ) (v : EV) : Heap :=
  { h with evs := fun x => if x = r then v else h.evs x }

/-- In-place mutation of the Charger object behind a reference. -/
def Heap.setCharger (h : Heap) (r : ℕ) (v : ChargerObj) : Heap :=
  { h with chargers := fun x => if x = r then v else h.chargers x }

/-- copy.deepcopy of the EV objects of one charger: fresh references holding
copies of the pointed-to values. -/
def copy_evs (h : Heap) : List ℕ → Heap × List ℕ
  | [] => (h, [])
  | r :: rs =>
      let h1 := Heap.setEV { h with next := h.next + 1 } h.next (h.evs r)
      let step := copy_evs h1 rs
      (step.1, h.next :: step.2)

/-- copy.deepcopy of a single Charger: the EVs it holds are deep-copied
first, then the charger value (pointing at the copies) goes to a fresh
reference. -/
def copy_charger (h : Heap) (r : ℕ) : Heap × ℕ :=
  let c := h.chargers r
  let step := copy_evs h c.ev_refs
  (Heap.setCharger { step.1 with next := step.1.next + 1 } step.1.next
      { c with ev_refs := step.2 }, step.1.next)

/-- copy.deepcopy(self.dict_of_chargers): every charger in the roster and
every EV it holds is duplicated at fresh references. -/
def deepcopy_chargers (h : Heap) : List ℕ → Heap × List ℕ
  | [] => (h, [])
  | r :: rs =>
      let step := copy_charger h r
      let rest := deepcopy_chargers step.1 rs
      (rest.1, step.2 :: rest.2)

/-- EV.charging_profile acting on the EV object behind a reference: the
mutated vehicle (battery and recorder) is stored back. -/
def ev_charging_profile_heap (h : Heap) (r : ℕ)
    (steps : List (SimDateTime × ℚ)) : Heap × List ℚ :=
  let result := (h.evs r).charging_profile steps
  (h.setEV r result.1, result.2)

/-- Inner loop of Charger.charging_profile: dispatch the same per-timestep
energy offers to every EV of the charger, accumulating the total output in
power (dispatched energy divided by the interval factor). -/
def charger_ev_loop (h : Heap) (steps : List (SimDateTime × ℚ))
    (total : List ℚ) : List ℕ → Heap × List ℚ
  | [] => (h, total)
  | r :: rs =>
      let step := ev_charging_profile_heap h r steps
      let total1 := List.zipWith (fun t d => t + d / POWER_TO_ENERGY_FACTOR)
        total step.2
      charger_ev_loop step.1 steps total1 rs

/-- Embedding of Charger.charging_profile: with no explicit schedule the
charger splits its max output equally across its vehicles; powers convert to
energies with the interval factor; the total output is recorded (as energy)
on the charger's recorder and returned. -/
def charger_charging_profile (h : Heap) (r : ℕ)
    (timesteps : List SimDateTime) (schedule_charging : Option (List ℚ)) :
    Heap × List ℚ :=
  let c := h.chargers r
  let sched :=
    match schedule_charging with
    | some s => s
    | none => timesteps.map (fun _ => c.max_output / (c.ev_refs.length : ℚ))
  let offers := sched.map (fun p => p * POWER_TO_ENERGY_FACTOR)
  let run := charger_ev_loop h (timesteps.zip offers)
    (timesteps.map (fun _ => 0)) c.ev_refs
  let c1 := run.1.chargers r
  (run.1.setCharger r
      { c1 with
        data_recorder := c1.data_recorder.record_batch_data
          (run.2.map (fun t => t * POWER_TO_ENERGY_FACTOR)) "ENERGY_INPUT" },
    run.2)

/-- Group the year of site rows by calendar day.  The source iterates a
Python set of dates, whose order is unspecified, and sorts the concatenated
result afterwards; first-occurrence order is one instance of it. -/
def groupByDay (site : List TSlot) : List (List TSlot) :=
  ((site.map (fun s => s.dt.dayIndex)).dedup).map
    (fun d => site.filter (fun s => s.dt.dayIndex = d))

/-- Embedding of controller.get_charging_profile_for_year: run the day
pipeline on each day of the site data with the EV battery's requested energy
and schedule, concatenate, and sort back to chronological order
(pd.concat + sort_index). -/
def get_charging_profile_for_year (site : List TSlot) (b : Battery)
    (max_charger_output : ℚ) : List (ℕ × ℚ) :=
  List.insertionSort (fun a b => a.1 ≤ b.1)
    (((groupByDay site).map (fun day =>
      get_charging_profile_for_single_day day b.schedule max_charger_output
        b.requested_energy)).flatten)

/-- Inner loop of controller.run_optimizer over the EVs of one charger: the
year profile is computed (purely) from the current state of the referenced
vehicle's battery, dispatched through the charger (mutating the vehicles and
the charger recorder behind their references), and the charger's energy
demand is folded back into the running site series. -/
def run_optimizer_ev_loop (h : Heap) (r : ℕ) (site : List TSlot) :
    List ℕ → Heap × List TSlot
  | [] => (h, site)
  | re :: res =>
      let profile := get_charging_profile_for_year site ((h.evs re).battery)
        (h.chargers r).max_output
      let run := charger_charging_profile h r (site.map (fun s => s.dt))
        (some (profile.map (fun q => q.2)))
      let site1 := List.zipWith
        (fun s en => { s with site_energy := s.site_energy + en })
        site (run.2.map (fun t => t * POWER_TO_ENERGY_FACTOR))
      run_optimizer_ev_loop run.1 r site1 res

/-- Embedding of controller.run_optimizer: loop over the chargers of the
roster and their EVs. -/
def run_optimizer_heap (h : Heap) (site : List TSlot) :
    List ℕ → Heap × List TSlot
  | [] => (h, site)
  | r :: rs =>
      let step := run_optimizer_ev_loop h r site (h.chargers r).ev_refs
      run_optimizer_heap step.1 step.2 rs

/-- One chronological row of the site demand and import-limit inputs. -/
structure SiteRow where
  idx : ℕ
  dt : SimDateTime
  site_energy : ℚ
  import_limit : ℚ

/-- Embedding of enums.SiteScheduleOptimzer. -/
inductive SiteScheduleOptimzer where
  | BASE_OPTIMIZER
  | EMISSION_OPTIMIZER
  | PRICE_OPTIMIZER
  | PV_OPTIMIZER
deriving DecidableEq, Repr

/-- Embedding of controller.Optimized_Sites (the fields the claims need):
the charger roster is a list of heap references and the optional ranking
series are row-aligned value lists. -/
structure Optimized_Sites where
  site_rows : List SiteRow
  dict_of_chargers : List ℕ
  carbon_dataf : Option (List ℚ)
  price_dataf : Option (List ℚ)
  pv_dataf : Option (List ℚ)

/-- Embedding of Optimized_Sites.site_dataf_creator composed with
optimizer_selector and the data_processing builders: the base target is the
hour of day (create_dataf_base); the emission and price targets join the
corresponding series onto the demand (create_dataf_for_control); for the PV
strategy optimizer_selector receives the PV frame as both arguments, and
because create_dataf_for_control renames the columns of the shared object,
the PV values end up as both the target and the SITE_ENERGY column.  A
missing series falls back to the base frame (optimizer_selector with
target_dataf None); run_control_method's guard skips those cases anyway. -/
def site_dataf_creator (S : Optimized_Sites)
    (control_type : SiteScheduleOptimzer) : List TSlot :=
  let base := S.site_rows.map (fun row =>
    (⟨row.idx, row.dt, row.site_energy, row.import_limit,
      ((row.dt.minutes / 60 : ℕ) : ℚ)⟩ : TSlot))
  match control_type with
  | .BASE_OPTIMIZER => base
  | .EMISSION_OPTIMIZER =>
      match S.carbon_dataf with
      | none => base
      | some cs => List.zipWith (fun (row : SiteRow) c =>
          (⟨row.idx, row.dt, row.site_energy, row.import_limit, c⟩ : TSlot))
          S.site_rows cs
  | .PRICE_OPTIMIZER =>
      match S.price_dataf with
      | none => base
      | some ps => List.zipWith (fun (row : SiteRow) c =>
          (⟨row.idx, row.dt, row.site_energy, row.import_limit, c⟩ : TSlot))
          S.site_rows ps
  | .PV_OPTIMIZER =>
      match S.pv_dataf with
      | none => base
      | some ps => List.zipWith (fun (row : SiteRow) p =>
          (⟨row.idx, row.dt, p, row.import_limit, p⟩ : TSlot))
          S.site_rows ps

/-- Embedding of Optimized_Sites.run_control_method with the heap explicit:
a strategy whose ranking series is missing is skipped (diagnostic print only,
heap untouched, absence marker None returned); otherwise the charger roster
is deep-copied, the optimizer runs against the copy, and the generated
system — modelled by the references of the copied roster it carries — is
returned. -/
def run_control_method (S : Optimized_Sites) (h : Heap)
    (control_type : SiteScheduleOptimzer) : Heap × Option (List ℕ) :=
  if (S.carbon_dataf = none ∧
        control_type = SiteScheduleOptimzer.EMISSION_OPTIMIZER) ∨
      (S.price_dataf = none ∧
        control_type = SiteScheduleOptimzer.PRICE_OPTIMIZER) ∨
      (S.pv_dataf = none ∧
        control_type = SiteScheduleOptimzer.PV_OPTIMIZER) then
    (h, none)
  else
    let copied := deepcopy_chargers h S.dict_of_chargers
    let run := run_optimizer_heap copied.1
      (site_dataf_creator S control_type) copied.2
    (run.1, some copied.2)

/-- Embedding of Optimized_Sites.run_all_control_methods: the four strategies
run in sequence (each threading the heap) and the result maps every strategy
label to its outcome. -/
def run_all_control_methods (S : Optimized_Sites) (h : Heap) :
    Heap × List (String × Option (List ℕ)) :=
  let basic := run_control_method S h SiteScheduleOptimzer.BASE_OPTIMIZER
  let emissions := run_control_method S basic.1
    SiteScheduleOptimzer.EMISSION_OPTIMIZER
  let price := run_control_method S emissions.1
    SiteScheduleOptimzer.PRICE_OPTIMIZER
  let pv := run_control_method S price.1 SiteScheduleOptimzer.PV_OPTIMIZER
  (pv.1, [("Basic", basic.2), ("Emission", emissions.2),
    ("Price", price.2), ("PV", pv.2)])

/-- Both heaps agree on every reference below n. -/
def PreservesBelow (n : ℕ) (h h1 : Heap) : Prop :=
  (∀ r, r < n → h1.evs r = h.evs r) ∧
    (∀ r, r < n → h1.chargers r = h.chargers r)

/- ===================  theorems  =================== -/

/-- Sampling-interval conversion factor is positive. -/
theorem POWER_TO_ENERGY_FACTOR_pos : 0 < POWER_TO_ENERGY_FACTOR := by
  norm_num [POWER_TO_ENERGY_FACTOR]

/-- C7 counterexample: a battery constructed with current_soc = -1 keeps the
out-of-range value -1; values below 0 are not clamped, refuting the claim that
construction forces 0 ≤ current_soc. -/
theorem mkBattery_no_lower_clamp :
    (mkBattery (-1) (1/2) 1 {} 0).current_soc = -1 ∧
      ¬ (0 ≤ (mkBattery (-1) (1/2) 1 {} 0).current_soc) := by
  refine ⟨rfl, ?_⟩
  norm_num [mkBattery]

/-- C7 amended: construction clamps SOC inputs from above only.  The
constructed battery has current_soc = min(input, 1), target_soc =
min(input, 1) and initial_soc equal to the resulting current_soc; no input is
rejected, but inputs below 0 are kept as they are. -/
theorem mkBattery_construction (c t size : ℚ) (s : Schedule) (l : ℚ) :
    (mkBattery c t size s l).current_soc = min c 1 ∧
      (mkBattery c t size s l).target_soc = min t 1 ∧
      (mkBattery c t size s l).initial_soc = min c 1 ∧
      (mkBattery c t size s l).battery_size = size ∧
      (mkBattery c t size s l).battery_losses = l := by
  unfold mkBattery
  refine ⟨?_, ?_, ?_, rfl, rfl⟩ <;> dsimp only <;> rw [min_def] <;>
    split_ifs <;> first | rfl | linarith

/-- Unplugged branch of battery_is_plugged: reset and zero consumption. -/
theorem battery_is_plugged_of_unplugged (b : Battery) (dt : SimDateTime)
    (e : ℚ) (hplug : b.schedule.is_plugged dt = false) :
    b.battery_is_plugged dt e =
      ({ b with current_soc := b.initial_soc }, 0) := by
  simp [Battery.battery_is_plugged, hplug, Battery.reset_current_soc]

/-- Plugged branch with the target already reached: nothing happens. -/
theorem battery_is_plugged_of_achieved (b : Battery) (dt : SimDateTime)
    (e : ℚ) (hplug : b.schedule.is_plugged dt = true)
    (heq : b.current_soc = b.target_soc) :
    b.battery_is_plugged dt e = (b, 0) := by
  simp [Battery.battery_is_plugged, hplug, Battery.target_charge_achieved, heq]

/-- Plugged branch away from the target: defer to battery_is_charging. -/
theorem battery_is_plugged_of_charging (b : Battery) (dt : SimDateTime)
    (e : ℚ) (hplug : b.schedule.is_plugged dt = true)
    (hne : b.current_soc ≠ b.target_soc) :
    b.battery_is_plugged dt e = b.battery_is_charging e := by
  simp [Battery.battery_is_plugged, hplug, Battery.target_charge_achieved, hne]

/-- Clipped branch of battery_is_charging: the tentative charge overshoots the
target stored energy, so consumption is clipped and the SOC jumps to target. -/
theorem battery_is_charging_clip (b : Battery) (e : ℚ)
    (h : b.battery_size * b.target_soc < b.current_soc * b.battery_size + e) :
    b.battery_is_charging e =
      ({ b with current_soc := b.target_soc },
        b.battery_size * b.target_soc - b.battery_size * b.current_soc) := by
  simp only [Battery.battery_is_charging, Battery.target_energy_stored,
    Battery.current_energy_stored]
  rw [if_neg (not_le.mpr h)]

/-- Full-consumption branch of battery_is_charging: the whole offer fits below
the target stored energy and the SOC rises proportionally. -/
theorem battery_is_charging_full (b : Battery) (e : ℚ)
    (hsize : b.battery_size ≠ 0)
    (h : b.current_soc * b.battery_size + e ≤
      b.battery_size * b.target_soc) :
    b.battery_is_charging e =
      ({ b with current_soc := b.current_soc + e / b.battery_size }, e) := by
  simp only [Battery.battery_is_charging]
  rw [if_pos h]
  have hdiv : (b.current_soc * b.battery_size + e) / b.battery_size =
      b.current_soc + e / b.battery_size := by
    field_simp
  rw [hdiv]

/-- C3: one step of Battery.run_model is the four-step transition.  The loss
rate is subtracted unconditionally first; if unplugged the SOC resets to
initial_soc and 0 is returned; if plugged at target the step returns 0 and
leaves the post-loss SOC unchanged; if plugged below target the offer is added
in full (SOC rising by e divided by capacity) unless it would push the stored
energy above capacity times target SOC, in which case the consumed energy is
clipped to the remaining requested energy and the SOC is set to target. -/
theorem battery_run_model_cases (b : Battery) (dt : SimDateTime) (e : ℚ)
    (hsize : 0 < b.battery_size) :
    b.calculate_losses.current_soc = b.current_soc - b.battery_losses ∧
    (b.schedule.is_plugged dt = false →
      b.run_model dt e =
        ({ b.calculate_losses with current_soc := b.initial_soc }, 0)) ∧
    (b.schedule.is_plugged dt = true →
      b.calculate_losses.current_soc = b.target_soc →
      b.run_model dt e = (b.calculate_losses, 0)) ∧
    (b.schedule.is_plugged dt = true →
      b.calculate_losses.current_soc < b.target_soc →
      (b.calculate_losses.current_soc * b.battery_size + e >
          b.battery_size * b.target_soc →
        b.run_model dt e =
          ({ b.calculate_losses with current_soc := b.target_soc },
            b.battery_size * b.target_soc -
              b.battery_size * b.calculate_losses.current_soc)) ∧
      (b.calculate_losses.current_soc * b.battery_size + e ≤
          b.battery_size * b.target_soc →
        b.run_model dt e =
          ({ b.calculate_losses with
              current_soc := b.calculate_losses.current_soc +
                e / b.battery_size }, e))) := by
  have hrm : b.run_model dt e = b.calculate_losses.battery_is_plugged dt e :=
    rfl
  refine ⟨rfl, ?_, ?_, ?_⟩
  · intro hplug
    rw [hrm]
    exact battery_is_plugged_of_unplugged b.calculate_losses dt e hplug
  · intro hplug heq
    rw [hrm]
    exact battery_is_plugged_of_achieved b.calculate_losses dt e hplug heq
  · intro hplug hlt
    refine ⟨fun hover => ?_, fun hle => ?_⟩
    · rw [hrm, battery_is_plugged_of_charging b.calculate_losses dt e hplug
        (ne_of_lt hlt)]
      exact battery_is_charging_clip b.calculate_losses e hover
    · rw [hrm, battery_is_plugged_of_charging b.calculate_losses dt e hplug
        (ne_of_lt hlt)]
      exact battery_is_charging_full b.calculate_losses e (ne_of_gt hsize) hle

/-- C3 witness: the theorem applied to a concrete plugged, below-target,
non-overshooting step. -/
theorem battery_run_model_cases_witness :
    0 < (mkBattery (1/2) 1 10 {} 0).battery_size ∧
      (mkBattery (1/2) 1 10 {} 0).run_model ⟨0, 600⟩ 1 =
        ({ (mkBattery (1/2) 1 10 {} 0).calculate_losses with
            current_soc :=
              (mkBattery (1/2) 1 10 {} 0).calculate_losses.current_soc +
                1 / (mkBattery (1/2) 1 10 {} 0).battery_size }, 1) :=
  ⟨by norm_num [mkBattery],
    (battery_run_model_cases (mkBattery (1/2) 1 10 {} 0) ⟨0, 600⟩ 1
          (by norm_num [mkBattery])).2.2.2 (by decide) (by norm_num [mkBattery,
            Battery.calculate_losses]) |>.2 (by norm_num [mkBattery,
              Battery.calculate_losses])⟩

/-- C5 counterexample: a plugged battery whose current SOC is above its target
SOC returns a negative consumed energy (-4 here) for the nonnegative offer 1,
refuting 0 ≤ returned for every battery state. -/
theorem run_model_negative_output :
    ((mkBattery (9/10) (1/2) 10 {} 0).run_model ⟨0, 600⟩ 1).2 = -4 ∧
      ¬ (0 ≤ ((mkBattery (9/10) (1/2) 10 {} 0).run_model ⟨0, 600⟩ 1).2) := by
  have hval : ((mkBattery (9/10) (1/2) 10 {} 0).run_model ⟨0, 600⟩ 1).2 = -4 := by
    have hrm : (mkBattery (9/10) (1/2) 10 {} 0).run_model ⟨0, 600⟩ 1 =
        (mkBattery (9/10) (1/2) 10 {} 0).calculate_losses.battery_is_plugged
          ⟨0, 600⟩ 1 := rfl
    rw [hrm, battery_is_plugged_of_charging _ ⟨0, 600⟩ 1 (by decide)
        (by norm_num [mkBattery, Battery.calculate_losses]),
      battery_is_charging_clip _ 1
        (by norm_num [mkBattery, Battery.calculate_losses])]
    norm_num [mkBattery, Battery.calculate_losses]
  exact ⟨hval, by rw [hval]; norm_num⟩

/-- C5 amended: for a battery whose post-loss SOC does not exceed its target
SOC and whose size is positive, the energy consumed by one run_model step
on a nonnegative offer e satisfies 0 ≤ consumed ≤ e.  (When the post-loss SOC
exceeds the target the code returns a negative quantity, see the
counterexample.) -/
theorem run_model_output_bounds (b : Battery) (dt : SimDateTime) (e : ℚ)
    (he : 0 ≤ e) (hsize : 0 < b.battery_size)
    (hsoc : b.current_soc - b.battery_losses ≤ b.target_soc) :
    0 ≤ (b.run_model dt e).2 ∧ (b.run_model dt e).2 ≤ e := by
  have hrm : b.run_model dt e = b.calculate_losses.battery_is_plugged dt e :=
    rfl
  rw [hrm]
  rcases hb : b.schedule.is_plugged dt with _ | _
  · rw [battery_is_plugged_of_unplugged b.calculate_losses dt e hb]
    exact ⟨le_refl 0, he⟩
  · rcases eq_or_ne b.calculate_losses.current_soc b.target_soc with heq | hne
    · rw [battery_is_plugged_of_achieved b.calculate_losses dt e hb heq]
      exact ⟨le_refl 0, he⟩
    · rw [battery_is_plugged_of_charging b.calculate_losses dt e hb hne]
      have hsoc1 : b.calculate_losses.current_soc =
          b.current_soc - b.battery_losses := rfl
      rcases le_or_lt
          (b.calculate_losses.current_soc * b.battery_size + e)
          (b.battery_size * b.target_soc) with hle | hover
      · rw [battery_is_charging_full b.calculate_losses e
          (ne_of_gt hsize) hle]
        exact ⟨he, le_refl e⟩
      · rw [battery_is_charging_clip b.calculate_losses e hover]
        have hsz : b.calculate_losses.battery_size = b.battery_size := rfl
        have htg : b.calculate_losses.target_soc = b.target_soc := rfl
        constructor
        · simp only [hsz, htg, hsoc1]
          nlinarith
        · simp only [hsz, htg, hsoc1] at hover ⊢
          nlinarith

/-- C5 witness: the bounds theorem applied to a concrete plugged step with a
below-target battery and offer 1. -/
theorem run_model_output_bounds_witness :
    (0 : ℚ) ≤ 1 ∧ 0 < (mkBattery (1/2) 1 10 {} 0).battery_size ∧
      (mkBattery (1/2) 1 10 {} 0).current_soc -
          (mkBattery (1/2) 1 10 {} 0).battery_losses ≤
        (mkBattery (1/2) 1 10 {} 0).target_soc ∧
      0 ≤ ((mkBattery (1/2) 1 10 {} 0).run_model ⟨0, 600⟩ 1).2 ∧
      ((mkBattery (1/2) 1 10 {} 0).run_model ⟨0, 600⟩ 1).2 ≤ 1 :=
  ⟨by norm_num, by norm_num [mkBattery], by norm_num [mkBattery],
    (run_model_output_bounds (mkBattery (1/2) 1 10 {} 0) ⟨0, 600⟩ 1
        (by norm_num) (by norm_num [mkBattery]) (by norm_num [mkBattery])).1,
    (run_model_output_bounds (mkBattery (1/2) 1 10 {} 0) ⟨0, 600⟩ 1
        (by norm_num) (by norm_num [mkBattery]) (by norm_num [mkBattery])).2⟩

/-- C6 counterexample: with loss rate 3/5 per step, a single plugged step with
offer 0 drives the SOC to -1/10, outside the unit interval, refuting the SOC
bound for arbitrary battery configurations. -/
theorem socTrace_escapes_unit_interval :
    socTrace (mkBattery (1/2) 1 1 {} (3/5)) [(⟨0, 600⟩, 0)] = [-1/10] ∧
      ¬ (∀ x ∈ socTrace (mkBattery (1/2) 1 1 {} (3/5)) [(⟨0, 600⟩, 0)],
          0 ≤ x ∧ x ≤ 1) := by
  have hrm : (mkBattery (1/2) 1 1 {} (3/5)).run_model ⟨0, 600⟩ 0 =
      (mkBattery (1/2) 1 1 {} (3/5)).calculate_losses.battery_is_plugged
        ⟨0, 600⟩ 0 := rfl
  have hres : ((mkBattery (1/2) 1 1 {} (3/5)).run_model ⟨0, 600⟩ 0).1 =
      { (mkBattery (1/2) 1 1 {} (3/5)).calculate_losses with
        current_soc :=
          (mkBattery (1/2) 1 1 {} (3/5)).calculate_losses.current_soc +
            0 / (mkBattery (1/2) 1 1 {} (3/5)).calculate_losses.battery_size
            } := by
    rw [hrm, battery_is_plugged_of_charging _ ⟨0, 600⟩ 0 (by decide)
        (by norm_num [mkBattery, Battery.calculate_losses]),
      battery_is_charging_full _ 0
        (by norm_num [mkBattery, Battery.calculate_losses])
        (by norm_num [mkBattery, Battery.calculate_losses])]
  have htrace : socTrace (mkBattery (1/2) 1 1 {} (3/5)) [(⟨0, 600⟩, 0)] =
      [-1/10] := by
    simp only [socTrace, ev_step_loop, List.map]
    rw [hres]
    norm_num [mkBattery, Battery.calculate_losses]
  refine ⟨htrace, ?_⟩
  rw [htrace]
  intro h
  have := (h (-1/10) (by simp)).1
  norm_num at this

/-- Clamping from above keeps a nonnegative value in the unit interval. -/
theorem clamp_above_unit (x : ℚ) (hx : 0 ≤ x) :
    0 ≤ (if x > 1 then 1 else x) ∧ (if x > 1 then 1 else x) ≤ 1 := by
  split_ifs with h
  · exact ⟨zero_le_one, le_refl 1⟩
  · exact ⟨hx, le_of_not_lt h⟩

/-- One run_model step preserves the battery invariant when the offer is
nonnegative. -/
theorem run_model_preserves_BatInv (b : Battery) (dt : SimDateTime) (e : ℚ)
    (hb : BatInv b) (he : 0 ≤ e) : BatInv (b.run_model dt e).1 := by
  obtain ⟨h0, h1, ht0, ht1, hi0, hi1, hsz, hl⟩ := hb
  have hrm : b.run_model dt e = b.calculate_losses.battery_is_plugged dt e :=
    rfl
  have hsoc1 : b.calculate_losses.current_soc = b.current_soc := by
    simp [Battery.calculate_losses, hl]
  rw [hrm]
  rcases hp : b.schedule.is_plugged dt with _ | _
  · rw [battery_is_plugged_of_unplugged b.calculate_losses dt e hp]
    exact ⟨hi0, hi1, ht0, ht1, hi0, hi1, hsz, hl⟩
  · rcases eq_or_ne b.calculate_losses.current_soc b.target_soc with heq | hne
    · rw [battery_is_plugged_of_achieved b.calculate_losses dt e hp heq]
      refine ⟨?_, ?_, ht0, ht1, hi0, hi1, hsz, hl⟩
      · rw [hsoc1]; exact h0
      · rw [hsoc1]; exact h1
    · rw [battery_is_plugged_of_charging b.calculate_losses dt e hp hne]
      rcases le_or_lt
          (b.calculate_losses.current_soc * b.battery_size + e)
          (b.battery_size * b.target_soc) with hle | hover
      · rw [battery_is_charging_full b.calculate_losses e
          (ne_of_gt hsz) hle]
        rw [hsoc1] at hle
        refine ⟨?_, ?_, ht0, ht1, hi0, hi1, hsz, hl⟩
        · show 0 ≤ b.calculate_losses.current_soc + e / b.battery_size
          rw [hsoc1]
          exact add_nonneg h0 (div_nonneg he hsz.le)
        · show b.calculate_losses.current_soc + e / b.battery_size ≤ 1
          rw [hsoc1]
          have hdiv : e / b.battery_size ≤ b.target_soc - b.current_soc := by
            rw [div_le_iff₀ hsz]
            nlinarith
          linarith
      · rw [battery_is_charging_clip b.calculate_losses e hover]
        exact ⟨ht0, ht1, ht0, ht1, hi0, hi1, hsz, hl⟩

/-- SOC trace bound under the battery invariant. -/
theorem socTrace_in_unit_interval (steps : List (SimDateTime × ℚ))
    (b : Battery) (hb : BatInv b) (he : ∀ p ∈ steps, 0 ≤ p.2) :
    ∀ x ∈ socTrace b steps, 0 ≤ x ∧ x ≤ 1 := by
  induction steps generalizing b with
  | nil => simp [socTrace, ev_step_loop]
  | cons p rest ih =>
      obtain ⟨dt, e⟩ := p
      have he0 : 0 ≤ e := he (dt, e) (by simp)
      have hrest : ∀ q ∈ rest, 0 ≤ q.2 := fun q hq => he q (by simp [hq])
      have hinv := run_model_preserves_BatInv b dt e hb he0
      have hcons : socTrace b ((dt, e) :: rest) =
          (b.run_model dt e).1.current_soc ::
            socTrace (b.run_model dt e).1 rest := by
        simp [socTrace, ev_step_loop]
      rw [hcons]
      intro x hx
      rcases List.mem_cons.mp hx with hx1 | hx2
      · subst hx1; exact ⟨hinv.1, hinv.2.1⟩
      · exact ih (b.run_model dt e).1 hinv hrest x hx2

/-- C6 amended: the SOC stays within the unit interval for every sequence of
timesteps and offers provided the loss rate is zero, the constructor SOC
inputs are nonnegative, the battery size is positive and every offer is
nonnegative.  (A positive loss rate, or a negative constructor SOC, escapes
the interval, see the counterexample.) -/
theorem mkBattery_socTrace_bounds (c t size losses : ℚ) (s : Schedule)
    (steps : List (SimDateTime × ℚ)) (hc : 0 ≤ c) (ht : 0 ≤ t)
    (hsize : 0 < size) (hl : losses = 0) (he : ∀ p ∈ steps, 0 ≤ p.2) :
    ∀ x ∈ socTrace (mkBattery c t size s losses) steps, 0 ≤ x ∧ x ≤ 1 := by
  apply socTrace_in_unit_interval steps _ _ he
  exact ⟨(clamp_above_unit c hc).1, (clamp_above_unit c hc).2,
    (clamp_above_unit t ht).1, (clamp_above_unit t ht).2,
    (clamp_above_unit c hc).1, (clamp_above_unit c hc).2, hsize, hl⟩

/-- C6 witness: the amended bound applied to a concrete one-step simulation
with a clipping charge. -/
theorem mkBattery_socTrace_bounds_witness :
    (0 : ℚ) ≤ 1/2 ∧ (0 : ℚ) ≤ 1 ∧ (0 : ℚ) < 1 ∧
      (∀ x ∈ socTrace (mkBattery (1/2) 1 1 {} 0) [(⟨0, 600⟩, 2)],
        0 ≤ x ∧ x ≤ 1) :=
  ⟨by norm_num, by norm_num, by norm_num,
    mkBattery_socTrace_bounds (1/2) 1 1 0 {} [(⟨0, 600⟩, 2)]
      (by norm_num) (by norm_num) (by norm_num) rfl
      (by intro p hp; simp at hp; rw [hp]; norm_num)⟩

/-- C10: record_batch_data casts every value with astype int64 (truncation
toward zero, with 64-bit wrap) before storing, EV.charging_profile records the
vehicle's SOC series through it, and every rational in [0,1) truncates to 0,
so every recorded state of charge at least 0 and strictly below 1 reads back
as the whole number 0. -/
theorem recorded_series_truncated (ev : EV) (steps : List (SimDateTime × ℚ))
    (r : TimeserieRecorder) (vals : List ℚ) (col : String) (q : ℚ) :
    (r.record_batch_data vals col).batches =
        (col, vals.map astype_int64) :: r.batches ∧
      (ev.charging_profile steps).1.data_recorder.batches =
        ("PLUGGED", ((ev_step_loop ev.battery steps).2.map
            (fun row => if row.2.2 then (1 : ℚ) else 0)).map astype_int64) ::
          ("ENERGY_INPUT", ((ev_step_loop ev.battery steps).2.map
            (fun row => row.2.1)).map astype_int64) ::
          ("SOC", (socTrace ev.battery steps).map astype_int64) ::
          ev.data_recorder.batches ∧
      (0 ≤ q → q < 1 → astype_int64 q = 0) ∧
      ((∀ x ∈ socTrace ev.battery steps, 0 ≤ x ∧ x < 1) →
        ∀ z ∈ (socTrace ev.battery steps).map astype_int64, z = 0) := by
  have hzero : ∀ p : ℚ, 0 ≤ p → p < 1 → astype_int64 p = 0 := by
    intro p hp0 hp1
    have hfloor : ⌊p⌋ = 0 := Int.floor_eq_zero_iff.mpr ⟨hp0, hp1⟩
    simp only [astype_int64, if_pos hp0, hfloor, int64_wrap]
    decide
  refine ⟨rfl, rfl, hzero q, ?_⟩
  intro hall z hz
  rcases List.mem_map.mp hz with ⟨x, hx, hxz⟩
  rw [← hxz]
  exact hzero x (hall x hx).1 (hall x hx).2

/-- C10 witness: a state of charge of one half is recorded as 0. -/
theorem recorded_series_truncated_witness :
    (0 : ℚ) ≤ 1/2 ∧ (1 : ℚ)/2 < 1 ∧ astype_int64 (1/2) = 0 :=
  ⟨by norm_num, by norm_num,
    (recorded_series_truncated ⟨"EV_1", mkBattery (1/2) 1 1 {} 0, ⟨[]⟩⟩ []
        ⟨[]⟩ [] "SOC" (1/2)).2.2.1 (by norm_num) (by norm_num)⟩

/-- After the running total has reached the requirement, the loop allocates
zero to every remaining slot (nonnegative headroom entries). -/
theorem alloc_loop_saturated (e : ℚ) (ps : List ℚ)
    (hnn : ∀ p ∈ ps, 0 ≤ p) :
    alloc_loop e e ps = ps.map (fun _ => 0) := by
  induction ps with
  | nil => rfl
  | cons p ps ih =>
      have hp : 0 ≤ p := hnn p (by simp)
      have hrest : ∀ q ∈ ps, 0 ≤ q := fun q hq => hnn q (by simp [hq])
      by_cases htest : e + p * POWER_TO_ENERGY_FACTOR > e
      · simp only [alloc_loop, if_pos htest, List.map_cons]
        rw [sub_self, zero_div]
        rw [show e + (0:ℚ) = e from add_zero e]
        rw [ih hrest]
      · have h0 : p * POWER_TO_ENERGY_FACTOR = 0 :=
          le_antisymm (by linarith [not_lt.mp htest])
            (mul_nonneg hp POWER_TO_ENERGY_FACTOR_pos.le)
        have hp0 : p = 0 := by
          rcases mul_eq_zero.mp h0 with h | h
          · exact h
          · exact absurd h (ne_of_gt POWER_TO_ENERGY_FACTOR_pos)
        simp only [alloc_loop, if_neg htest, List.map_cons]
        rw [h0, add_zero, ih hrest, hp0]

/-- Below saturation the source loop and the spec's greedy walk coincide. -/
theorem alloc_loop_eq_greedy (e : ℚ) (ps : List ℚ) (total : ℚ)
    (hnn : ∀ p ∈ ps, 0 ≤ p) (htot : total ≤ e) :
    alloc_loop e total ps = greedy_alloc_spec e total ps := by
  induction ps generalizing total with
  | nil => rfl
  | cons p ps ih =>
      have hrest : ∀ q ∈ ps, 0 ≤ q := fun q hq => hnn q (by simp [hq])
      by_cases hle : total + p * POWER_TO_ENERGY_FACTOR ≤ e
      · simp only [alloc_loop, greedy_alloc_spec, if_neg (not_lt.mpr hle),
          if_pos hle]
        rw [ih _ hrest hle]
      · simp only [alloc_loop, greedy_alloc_spec,
          if_pos (lt_of_not_le hle), if_neg hle]
        rw [show total + (e - total) = e from by ring,
          alloc_loop_saturated e ps hrest]

/-- Once the accumulator has reached the requirement, no later cumulative sum
of nonnegative entries falls below it. -/
theorem cumsumFrom_filter_below_empty (e acc : ℚ) (es : List ℚ)
    (hnn : ∀ x ∈ es, 0 ≤ x) (hacc : e ≤ acc) :
    (cumsumFrom acc es).filter (fun c => c < e) = [] := by
  induction es generalizing acc with
  | nil => rfl
  | cons x es ih =>
      have hx : 0 ≤ x := hnn x (by simp)
      have hrest : ∀ y ∈ es, 0 ≤ y := fun y hy => hnn y (by simp [hy])
      have hge : ¬ (acc + x < e) := not_lt.mpr (by linarith)
      simp only [cumsumFrom, List.filter_cons, decide_eq_true_eq]
      rw [if_neg hge]
      exact ih _ hrest (by linarith)

/-- Truncating the walk at the filter boundary and zero-filling the rest
reproduces the full greedy walk (nonnegative entries, feasible total). -/
theorem alloc_loop_take_eq (e : ℚ) (ps : List ℚ) (total : ℚ)
    (hnn : ∀ p ∈ ps, 0 ≤ p) (htot : total ≤ e) :
    alloc_loop e total
        (ps.take (min
          (((cumsumFrom total
              (ps.map (fun p => p * POWER_TO_ENERGY_FACTOR))).filter
                (fun c => c < e)).length + 1) ps.length)) ++
      (ps.drop (min
          (((cumsumFrom total
              (ps.map (fun p => p * POWER_TO_ENERGY_FACTOR))).filter
                (fun c => c < e)).length + 1) ps.length)).map (fun _ => 0)
    = alloc_loop e total ps := by
  induction ps generalizing total with
  | nil => simp [alloc_loop]
  | cons p ps ih =>
      have hp : 0 ≤ p := hnn p (by simp)
      have hrest : ∀ q ∈ ps, 0 ≤ q := fun q hq => hnn q (by simp [hq])
      have hrestf : ∀ x ∈ ps.map (fun p => p * POWER_TO_ENERGY_FACTOR),
          0 ≤ x := by
        intro x hx
        rcases List.mem_map.mp hx with ⟨q, hq, hqx⟩
        rw [← hqx]
        exact mul_nonneg (hrest q hq) POWER_TO_ENERGY_FACTOR_pos.le
      by_cases hcase : total + p * POWER_TO_ENERGY_FACTOR < e
      · have hfilter :
            ((cumsumFrom total
                ((p :: ps).map (fun p => p * POWER_TO_ENERGY_FACTOR))).filter
                  (fun c => c < e)).length =
              ((cumsumFrom (total + p * POWER_TO_ENERGY_FACTOR)
                (ps.map (fun p => p * POWER_TO_ENERGY_FACTOR))).filter
                  (fun c => c < e)).length + 1 := by
          simp only [List.map_cons, cumsumFrom, List.filter_cons,
            decide_eq_true_eq]
          rw [if_pos hcase]
          simp
        rw [hfilter]
        have hmin : min
            (((cumsumFrom (total + p * POWER_TO_ENERGY_FACTOR)
                (ps.map (fun p => p * POWER_TO_ENERGY_FACTOR))).filter
                  (fun c => c < e)).length + 1 + 1) (p :: ps).length =
            min (((cumsumFrom (total + p * POWER_TO_ENERGY_FACTOR)
                (ps.map (fun p => p * POWER_TO_ENERGY_FACTOR))).filter
                  (fun c => c < e)).length + 1) ps.length + 1 := by
          simp only [List.length_cons]
          omega
        rw [hmin, List.take_succ_cons, List.drop_succ_cons]
        have htest : ¬ (total + p * POWER_TO_ENERGY_FACTOR > e) :=
          not_lt.mpr hcase.le
        simp only [alloc_loop, if_neg htest, List.cons_append]
        rw [ih _ hrest hcase.le]
      · have hempty :
            (cumsumFrom (total + p * POWER_TO_ENERGY_FACTOR)
                (ps.map (fun p => p * POWER_TO_ENERGY_FACTOR))).filter
                  (fun c => c < e) = [] :=
          cumsumFrom_filter_below_empty e _ _ hrestf (not_lt.mp hcase)
        have hfilter :
            ((cumsumFrom total
                ((p :: ps).map (fun p => p * POWER_TO_ENERGY_FACTOR))).filter
                  (fun c => c < e)).length = 0 := by
          simp only [List.map_cons, cumsumFrom, List.filter_cons,
            decide_eq_true_eq]
          rw [if_neg hcase, hempty]
          rfl
        rw [hfilter]
        have hmin : min (0 + 1) (p :: ps).length = 1 := by
          simp only [List.length_cons]
          omega
        rw [hmin]
        rw [show List.take 1 (p :: ps) = [p] from by simp,
          show List.drop 1 (p :: ps) = ps from by simp]
        by_cases htest : total + p * POWER_TO_ENERGY_FACTOR > e
        · simp only [alloc_loop, if_pos htest, List.cons_append,
            List.nil_append]
          rw [show total + (e - total) = e from by ring,
            alloc_loop_saturated e ps hrest]
        · have heq : total + p * POWER_TO_ENERGY_FACTOR = e :=
            le_antisymm (not_lt.mp htest) (not_lt.mp hcase)
          simp only [alloc_loop, if_neg htest, List.cons_append,
            List.nil_append]
          rw [heq, alloc_loop_saturated e ps hrest]

/-- The loop never allocates more energy than the remaining requirement. -/
theorem alloc_loop_sum_le (e : ℚ) (ps : List ℚ) (total : ℚ)
    (hnn : ∀ p ∈ ps, 0 ≤ p) (htot : total ≤ e) :
    total + POWER_TO_ENERGY_FACTOR * (alloc_loop e total ps).sum ≤ e := by
  induction ps generalizing total with
  | nil => simpa [alloc_loop]
  | cons p ps ih =>
      have hrest : ∀ q ∈ ps, 0 ≤ q := fun q hq => hnn q (by simp [hq])
      by_cases htest : total + p * POWER_TO_ENERGY_FACTOR > e
      · simp only [alloc_loop, if_pos htest, List.sum_cons]
        rw [show total + (e - total) = e from by ring,
          alloc_loop_saturated e ps hrest]
        have hzs : ((ps.map (fun _ => (0:ℚ)))).sum = 0 := by
          simp
        rw [hzs, add_zero]
        rw [mul_div_cancel₀ _ (ne_of_gt POWER_TO_ENERGY_FACTOR_pos)]
        linarith
      · simp only [alloc_loop, if_neg htest, List.sum_cons]
        have hnext := ih (total + p * POWER_TO_ENERGY_FACTOR) hrest
          (not_lt.mp htest)
        nlinarith [hnext]

/-- Cumulative sums preserve length. -/
theorem cumsumFrom_length (acc : ℚ) (es : List ℚ) :
    (cumsumFrom acc es).length = es.length := by
  induction es generalizing acc with
  | nil => rfl
  | cons x es ih => simp [cumsumFrom, ih]

/-- Reading back the cum column written by the zip. -/
theorem zipWith_setcum_map_cum (xs : List DayRow) (cs : List ℚ)
    (h : xs.length = cs.length) :
    (List.zipWith (fun r c => { r with cum := c }) xs cs).map
      (fun r => r.cum) = cs := by
  induction xs generalizing cs with
  | nil =>
      cases cs with
      | nil => rfl
      | cons c cs => simp at h
  | cons x xs ih =>
      cases cs with
      | nil => simp at h
      | cons c cs =>
          simp only [List.zipWith_cons_cons, List.map_cons]
          rw [ih cs (by simpa using h)]

/-- Writing the cum column leaves the clp column unchanged. -/
theorem zipWith_setcum_map_clp (xs : List DayRow) (cs : List ℚ)
    (h : xs.length = cs.length) :
    (List.zipWith (fun r c => { r with cum := c }) xs cs).map
      (fun r => r.clp) = xs.map (fun r => r.clp) := by
  induction xs generalizing cs with
  | nil =>
      cases cs with
      | nil => rfl
      | cons c cs => simp at h
  | cons x xs ih =>
      cases cs with
      | nil => simp at h
      | cons c cs =>
          simp only [List.zipWith_cons_cons, List.map_cons]
          rw [ih cs (by simpa using h)]

/-- Every row produced by writing the cum column keeps its slot and clp. -/
theorem zipWith_setcum_mem (xs : List DayRow) (cs : List ℚ) (r : DayRow)
    (hr : r ∈ List.zipWith (fun r c => { r with cum := c }) xs cs) :
    ∃ r0 ∈ xs, r.slot = r0.slot ∧ r.clp = r0.clp := by
  induction xs generalizing cs with
  | nil => simp at hr
  | cons x xs ih =>
      cases cs with
      | nil => simp at hr
      | cons c cs =>
          rcases List.mem_cons.mp hr with h1 | h2
          · exact ⟨x, by simp, by rw [h1], by rw [h1]⟩
          · rcases ih cs h2 with ⟨r0, hr0, hs, hc⟩
            exact ⟨r0, by simp [hr0], hs, hc⟩

/-- cumsum_energy_consumed preserves length. -/
theorem cumsum_energy_consumed_length (rows : List DayRow) :
    (cumsum_energy_consumed rows).length = rows.length := by
  simp [cumsum_energy_consumed, cumsumFrom_length]

/-- cumsum_energy_consumed leaves the clp column unchanged. -/
theorem cumsum_energy_consumed_map_clp (rows : List DayRow) :
    (cumsum_energy_consumed rows).map (fun r => r.clp) =
      rows.map (fun r => r.clp) := by
  rw [cumsum_energy_consumed, zipWith_setcum_map_clp]
  rw [cumsumFrom_length, List.length_map]

/-- The cum column holds the running sums of clp times the interval factor. -/
theorem cumsum_energy_consumed_map_cum (rows : List DayRow) :
    (cumsum_energy_consumed rows).map (fun r => r.cum) =
      cumsumFrom 0 ((rows.map (fun r => r.clp)).map
        (fun p => p * POWER_TO_ENERGY_FACTOR)) := by
  rw [cumsum_energy_consumed, zipWith_setcum_map_cum]
  · rw [List.map_map]
    rfl
  · rw [cumsumFrom_length, List.length_map]

/-- find_last_index is the capped filter count plus one. -/
theorem find_last_index_eq_min (rows : List DayRow) (e : ℚ) :
    find_last_index rows e =
      min ((rows.filter (fun r => r.cum < e)).length + 1) rows.length := by
  simp only [find_last_index]
  split_ifs with h
  · exact (min_eq_right (by omega)).symm
  · exact (min_eq_left (by omega)).symm

/-- The filter count transports to the cum column. -/
theorem filter_cum_length (rows : List DayRow) (e : ℚ) :
    (rows.filter (fun r => r.cum < e)).length =
      ((rows.map (fun r => r.cum)).filter (fun c => c < e)).length := by
  rw [← List.countP_eq_length_filter, ← List.countP_eq_length_filter,
    List.countP_map]
  rfl

/-- C2: for nonnegative ranked headroom values and a nonnegative requested
energy, the daily optimizer's allocation (the greedy rewrite on the filter
prefix, zero elsewhere) is exactly the spec's greedy walk over the ranked
slots — full headroom while the running total fits, the remaining deficit at
the first overshooting slot, zero afterwards — and the total energy allocated
never exceeds the requested energy. -/
theorem daily_greedy_allocation (sorted_rows : List DayRow) (e : ℚ)
    (he : 0 ≤ e) (hnn : ∀ r ∈ sorted_rows, 0 ≤ r.clp) :
    (calculate_optimized_charging_profile
          (cumsum_energy_consumed sorted_rows) e ++
        List.replicate ((cumsum_energy_consumed sorted_rows).length -
          find_last_index (cumsum_energy_consumed sorted_rows) e) (0 : ℚ)
      = greedy_alloc_spec e 0 (sorted_rows.map (fun r => r.clp))) ∧
    POWER_TO_ENERGY_FACTOR *
        (calculate_optimized_charging_profile
          (cumsum_energy_consumed sorted_rows) e).sum ≤ e := by
  have hpsnn : ∀ p ∈ sorted_rows.map (fun r => r.clp), 0 ≤ p := by
    intro p hp
    rcases List.mem_map.mp hp with ⟨r, hr, hrp⟩
    rw [← hrp]
    exact hnn r hr
  have hlen : (cumsum_energy_consumed sorted_rows).length =
      (sorted_rows.map (fun r => r.clp)).length := by
    rw [cumsum_energy_consumed_length, List.length_map]
  have hk : find_last_index (cumsum_energy_consumed sorted_rows) e =
      min (((cumsumFrom 0 ((sorted_rows.map (fun r => r.clp)).map
          (fun p => p * POWER_TO_ENERGY_FACTOR))).filter
            (fun c => c < e)).length + 1)
        (sorted_rows.map (fun r => r.clp)).length := by
    rw [find_last_index_eq_min, filter_cum_length,
      cumsum_energy_consumed_map_cum, hlen]
  have hco : calculate_optimized_charging_profile
      (cumsum_energy_consumed sorted_rows) e =
      alloc_loop e 0 ((sorted_rows.map (fun r => r.clp)).take
        (find_last_index (cumsum_energy_consumed sorted_rows) e)) := by
    rw [calculate_optimized_charging_profile, ← List.map_take,
      List.map_take, cumsum_energy_consumed_map_clp, ← List.map_take]
  constructor
  · have hrepl : List.replicate ((cumsum_energy_consumed sorted_rows).length -
        find_last_index (cumsum_energy_consumed sorted_rows) e) (0 : ℚ) =
        ((sorted_rows.map (fun r => r.clp)).drop
          (find_last_index (cumsum_energy_consumed sorted_rows) e)).map
            (fun _ => (0 : ℚ)) := by
      rw [List.map_const', List.length_drop, hlen]
    rw [hco, hrepl, hk,
      alloc_loop_take_eq e (sorted_rows.map (fun r => r.clp)) 0 hpsnn he]
    exact alloc_loop_eq_greedy e (sorted_rows.map (fun r => r.clp)) 0 hpsnn he
  · rw [hco]
    have htk : ∀ p ∈ (sorted_rows.map (fun r => r.clp)).take
        (find_last_index (cumsum_energy_consumed sorted_rows) e), 0 ≤ p :=
      fun p hp => hpsnn p (List.take_subset _ _ hp)
    have := alloc_loop_sum_le e ((sorted_rows.map (fun r => r.clp)).take
      (find_last_index (cumsum_energy_consumed sorted_rows) e)) 0 htk he
    linarith

/-- C2 witness: the greedy-allocation theorem applied to three ranked slots of
headroom 4 kW (2 kWh each) and a requested energy of 3 kWh. -/
theorem daily_greedy_allocation_witness :
    (0 : ℚ) ≤ 3 ∧
      (calculate_optimized_charging_profile
            (cumsum_energy_consumed
              [⟨⟨0, ⟨0, 600⟩, 0, 0, 0⟩, 4, 0⟩, ⟨⟨1, ⟨0, 630⟩, 0, 0, 0⟩, 4, 0⟩,
                ⟨⟨2, ⟨0, 660⟩, 0, 0, 0⟩, 4, 0⟩]) 3 ++
          List.replicate ((cumsum_energy_consumed
              [⟨⟨0, ⟨0, 600⟩, 0, 0, 0⟩, 4, 0⟩, ⟨⟨1, ⟨0, 630⟩, 0, 0, 0⟩, 4, 0⟩,
                ⟨⟨2, ⟨0, 660⟩, 0, 0, 0⟩, 4, 0⟩]).length -
            find_last_index (cumsum_energy_consumed
              [⟨⟨0, ⟨0, 600⟩, 0, 0, 0⟩, 4, 0⟩, ⟨⟨1, ⟨0, 630⟩, 0, 0, 0⟩, 4, 0⟩,
                ⟨⟨2, ⟨0, 660⟩, 0, 0, 0⟩, 4, 0⟩]) 3) (0 : ℚ)
        = greedy_alloc_spec 3 0
            (([⟨⟨0, ⟨0, 600⟩, 0, 0, 0⟩, 4, 0⟩, ⟨⟨1, ⟨0, 630⟩, 0, 0, 0⟩, 4, 0⟩,
                ⟨⟨2, ⟨0, 660⟩, 0, 0, 0⟩, 4, 0⟩] : List DayRow).map
              (fun r => r.clp))) :=
  ⟨by norm_num,
    (daily_greedy_allocation
        [⟨⟨0, ⟨0, 600⟩, 0, 0, 0⟩, 4, 0⟩, ⟨⟨1, ⟨0, 630⟩, 0, 0, 0⟩, 4, 0⟩,
          ⟨⟨2, ⟨0, 660⟩, 0, 0, 0⟩, 4, 0⟩] 3 (by norm_num)
        (by
          intro r hr
          rcases List.mem_cons.mp hr with h | hr
          · rw [h]; norm_num
          rcases List.mem_cons.mp hr with h | hr
          · rw [h]; norm_num
          rcases List.mem_cons.mp hr with h | hr
          · rw [h]; norm_num
          · simp at hr)).1⟩

/-- The two np.where steps compute the headroom min floored at zero. -/
theorem charger_availability_eq_max_min (l m o : ℚ) :
    charger_availability l m o = max 0 (min o (m - l)) := by
  simp only [charger_availability]
  by_cases h1 : l + o > m
  · rw [if_pos h1]
    have hmin : min o (m - l) = m - l := min_eq_right (by linarith)
    rw [hmin]
    by_cases h2 : m - l < 0
    · rw [if_pos h2]
      exact (max_eq_left h2.le).symm
    · rw [if_neg h2, max_eq_right (not_lt.mp h2)]
  · rw [if_neg h1]
    have hmin : min o (m - l) = o := min_eq_left (by linarith)
    rw [hmin]
    by_cases h2 : o < 0
    · rw [if_pos h2]
      exact (max_eq_left h2.le).symm
    · rw [if_neg h2, max_eq_right (not_lt.mp h2)]

/-- The availability is never negative. -/
theorem charger_availability_nonneg (l m o : ℚ) :
    0 ≤ charger_availability l m o := by
  rw [charger_availability_eq_max_min]
  exact le_max_left 0 _

/-- When the site load is within the import limit, the availability leaves the
limit unexceeded. -/
theorem charger_availability_le_margin (l m o : ℚ) (hlm : l ≤ m) :
    charger_availability l m o ≤ m - l := by
  rw [charger_availability_eq_max_min]
  exact max_le (sub_nonneg.mpr hlm) (min_le_right _ _)

/-- Every combined row carries a nonnegative charger-load profile value. -/
theorem combine_load_profile_nonneg (sched : Schedule)
    (max_charger_output : ℚ) (day : List TSlot) :
    ∀ r ∈ combine_load_profile sched max_charger_output day, 0 ≤ r.clp := by
  intro r hr
  rcases List.mem_map.mp hr with ⟨s, hs, hsr⟩
  rw [← hsr]
  dsimp only
  split_ifs
  · exact charger_availability_nonneg _ _ _
  · exact le_refl 0

/-- A zero-filled list is pointwise bounded by any nonnegative list. -/
theorem forall₂_zeros (ps : List ℚ) (hnn : ∀ p ∈ ps, 0 ≤ p) :
    List.Forall₂ (fun a p => 0 ≤ a ∧ a ≤ p) (ps.map (fun _ => 0)) ps := by
  induction ps with
  | nil => constructor
  | cons p ps ih =>
      exact List.Forall₂.cons ⟨le_refl 0, hnn p (by simp)⟩
        (ih fun q hq => hnn q (by simp [hq]))

/-- The loop's output is pointwise nonnegative and bounded by the input
headroom values. -/
theorem alloc_loop_pointwise (e : ℚ) (ps : List ℚ) (total : ℚ)
    (hnn : ∀ p ∈ ps, 0 ≤ p) (htot : total ≤ e) :
    List.Forall₂ (fun a p => 0 ≤ a ∧ a ≤ p) (alloc_loop e total ps) ps := by
  induction ps generalizing total with
  | nil => constructor
  | cons p ps ih =>
      have hp : 0 ≤ p := hnn p (by simp)
      have hrest : ∀ q ∈ ps, 0 ≤ q := fun q hq => hnn q (by simp [hq])
      by_cases htest : total + p * POWER_TO_ENERGY_FACTOR > e
      · simp only [alloc_loop, if_pos htest]
        refine List.Forall₂.cons ⟨?_, ?_⟩ ?_
        · exact div_nonneg (by linarith) POWER_TO_ENERGY_FACTOR_pos.le
        · rw [div_le_iff₀ POWER_TO_ENERGY_FACTOR_pos]
          linarith
        · rw [show total + (e - total) = e from by ring,
            alloc_loop_saturated e ps hrest]
          exact forall₂_zeros ps hrest
      · simp only [alloc_loop, if_neg htest]
        exact List.Forall₂.cons ⟨hp, le_refl p⟩
          (ih (total + p * POWER_TO_ENERGY_FACTOR) hrest (not_lt.mp htest))

/-- Membership in the front zip pairs each index with an allocation bounded by
that row's headroom. -/
theorem zip_alloc_mem (rows : List DayRow) (upd : List ℚ)
    (h : List.Forall₂ (fun a p => 0 ≤ a ∧ a ≤ p) upd
      (rows.map (fun r => r.clp))) :
    ∀ q ∈ List.zipWith (fun r a => (r.slot.idx, a)) rows upd,
      ∃ r ∈ rows, q.1 = r.slot.idx ∧ 0 ≤ q.2 ∧ q.2 ≤ r.clp := by
  induction rows generalizing upd with
  | nil => intro q hq; simp at hq
  | cons r rows ih =>
      cases upd with
      | nil => intro q hq; simp at hq
      | cons a upd =>
          rw [List.map_cons] at h
          cases h with
          | cons hab htail =>
              intro q hq
              rcases List.mem_cons.mp hq with h1 | h2
              · exact ⟨r, by simp, by rw [h1], by rw [h1]; exact hab.1,
                  by rw [h1]; exact hab.2⟩
              · rcases ih upd htail q h2 with ⟨r0, hr0, hq1, hq2, hq3⟩
                exact ⟨r0, by simp [hr0], hq1, hq2, hq3⟩

/-- Every pair output by apply_new_charging_profile pairs the index of some
row with an allocation between zero and that row's headroom value. -/
theorem apply_new_charging_profile_mem (rows : List DayRow) (e : ℚ)
    (hnn : ∀ r ∈ rows, 0 ≤ r.clp) (he : 0 ≤ e) :
    ∀ q ∈ apply_new_charging_profile rows e,
      ∃ r ∈ rows, q.1 = r.slot.idx ∧ 0 ≤ q.2 ∧ q.2 ≤ r.clp := by
  intro q hq
  have hq2 : q ∈
      List.zipWith (fun r a => (r.slot.idx, a))
        (rows.take (find_last_index rows e))
        (calculate_optimized_charging_profile rows e) ++
      (rows.drop (find_last_index rows e)).map
        (fun r => (r.slot.idx, (0 : ℚ))) := by
    have hperm := List.perm_insertionSort
      (fun a b : ℕ × ℚ => a.1 ≤ b.1)
      (List.zipWith (fun r a => (r.slot.idx, a))
          (rows.take (find_last_index rows e))
          (calculate_optimized_charging_profile rows e) ++
        (rows.drop (find_last_index rows e)).map
          (fun r => (r.slot.idx, (0 : ℚ))))
    exact hperm.subset hq
  rcases List.mem_append.mp hq2 with hfront | hback
  · have htknn : ∀ p ∈ (rows.take (find_last_index rows e)).map
        (fun r => r.clp), 0 ≤ p := by
      intro p hp
      rcases List.mem_map.mp hp with ⟨r, hr, hrp⟩
      rw [← hrp]
      exact hnn r (List.take_subset _ _ hr)
    have hbnd := alloc_loop_pointwise e
      ((rows.take (find_last_index rows e)).map (fun r => r.clp)) 0 htknn he
    rcases zip_alloc_mem (rows.take (find_last_index rows e))
        (calculate_optimized_charging_profile rows e) hbnd q hfront with
      ⟨r, hr, hq1, hq2, hq3⟩
    exact ⟨r, List.take_subset _ _ hr, hq1, hq2, hq3⟩
  · rcases List.mem_map.mp hback with ⟨r, hr, hrq⟩
    refine ⟨r, List.drop_subset _ _ hr, ?_, ?_, ?_⟩
    · rw [← hrq]
    · rw [← hrq]
    · rw [← hrq]
      exact hnn r (List.drop_subset _ _ hr)

/-- C1 amended: for every permutation of the combined day rows (covering any
tie behavior of the ranking sort) and nonnegative requested energy, every
output pair of the daily optimizer pairs a day timestep with an allocation
that is nonnegative and at most the headroom
charger_availability = max(0, min(charger_max_output, import_limit - load)),
so at every timestep whose existing site load does not already exceed
the import limit, load + allocation stays within the limit.  (When the existing
load alone already exceeds the limit the allocation is 0 but the sum still
exceeds it, see the counterexample.) -/
theorem allocation_respects_headroom (day : List TSlot) (sched : Schedule)
    (max_charger_output e : ℚ) (sorted_rows : List DayRow)
    (hperm : sorted_rows.Perm
      (combine_load_profile sched max_charger_output day))
    (he : 0 ≤ e) :
    ∀ q ∈ day_profile_from_sorted sorted_rows e,
      ∃ s ∈ day, q.1 = s.idx ∧ 0 ≤ q.2 ∧
        q.2 ≤ charger_availability (s.site_energy / POWER_TO_ENERGY_FACTOR)
          s.import_limit max_charger_output ∧
        (s.site_energy / POWER_TO_ENERGY_FACTOR ≤ s.import_limit →
          s.site_energy / POWER_TO_ENERGY_FACTOR + q.2 ≤ s.import_limit) := by
  intro q hq
  have hsortnn : ∀ r ∈ sorted_rows, 0 ≤ r.clp := fun r hr =>
    combine_load_profile_nonneg sched max_charger_output day r
      (hperm.subset hr)
  have hrowsnn : ∀ r ∈ cumsum_energy_consumed sorted_rows, 0 ≤ r.clp := by
    intro r hr
    rw [cumsum_energy_consumed] at hr
    rcases zipWith_setcum_mem sorted_rows _ r hr with ⟨r0, hr0, hslot, hclp⟩
    rw [hclp]
    exact hsortnn r0 hr0
  rcases apply_new_charging_profile_mem (cumsum_energy_consumed sorted_rows) e
      hrowsnn he q hq with ⟨r, hr, hq1, hq2, hq3⟩
  rw [cumsum_energy_consumed] at hr
  rcases zipWith_setcum_mem sorted_rows _ r hr with ⟨r0, hr0, hslot, hclp⟩
  have hr0c : r0 ∈ combine_load_profile sched max_charger_output day :=
    hperm.subset hr0
  rcases List.mem_map.mp hr0c with ⟨s, hs, hsr0⟩
  have hslot2 : r0.slot = s := by rw [← hsr0]
  have hclp2 : r0.clp = if sched.is_plugged s.dt then
      charger_availability (s.site_energy / POWER_TO_ENERGY_FACTOR)
        s.import_limit max_charger_output else 0 := by
    rw [← hsr0]
  have hbnd : r.clp ≤ charger_availability
      (s.site_energy / POWER_TO_ENERGY_FACTOR) s.import_limit
      max_charger_output := by
    rw [hclp, hclp2]
    split_ifs
    · exact le_refl _
    · exact charger_availability_nonneg _ _ _
  refine ⟨s, hs, ?_, hq2, le_trans hq3 hbnd, ?_⟩
  · rw [hq1, hslot, hslot2]
  · intro hlm
    have := le_trans (le_trans hq3 hbnd)
      (charger_availability_le_margin _ _ _ hlm)
    linarith

/-- C1 counterexample: a timestep whose existing load (10 kW) already exceeds
the import limit (5 kW) gets allocation 0, yet load + allocation exceeds the
limit, refuting the unconditional capacity invariant. -/
theorem import_limit_exceeded :
    get_charging_profile_for_single_day [⟨0, ⟨0, 600⟩, 5, 5, 0⟩] {} 7 3 =
        [(0, 0)] ∧
      ¬ ((5 : ℚ) / POWER_TO_ENERGY_FACTOR + 0 ≤ 5) := by
  constructor
  · norm_num [get_charging_profile_for_single_day, day_profile_from_sorted,
      combine_load_profile, sort_by_target, cumsum_energy_consumed,
      charger_availability, Schedule.is_plugged, SimDateTime.weekday,
      apply_new_charging_profile, find_last_index,
      calculate_optimized_charging_profile, alloc_loop, cumsumFrom,
      List.insertionSort, List.orderedInsert, POWER_TO_ENERGY_FACTOR]
  · norm_num [POWER_TO_ENERGY_FACTOR]

/-- C1 witness: the headroom bound applied to a day of one plugged timestep
with load 4 kW and limit 50 kW. -/
theorem allocation_respects_headroom_witness :
    (0 : ℚ) ≤ 3 ∧
      ∀ q ∈ day_profile_from_sorted
          (combine_load_profile {} 7 [⟨0, ⟨0, 600⟩, 2, 50, 0⟩]) 3,
        ∃ s ∈ [(⟨0, ⟨0, 600⟩, 2, 50, 0⟩ : TSlot)], q.1 = s.idx ∧ 0 ≤ q.2 ∧
          q.2 ≤ charger_availability (s.site_energy / POWER_TO_ENERGY_FACTOR)
            s.import_limit 7 ∧
          (s.site_energy / POWER_TO_ENERGY_FACTOR ≤ s.import_limit →
            s.site_energy / POWER_TO_ENERGY_FACTOR + q.2 ≤ s.import_limit) :=
  ⟨by norm_num,
    allocation_respects_headroom [⟨0, ⟨0, 600⟩, 2, 50, 0⟩] {} 7 3
      (combine_load_profile {} 7 [⟨0, ⟨0, 600⟩, 2, 50, 0⟩])
      (List.Perm.refl _) (by norm_num)⟩

/-- PreservesBelow is reflexive. -/
theorem PreservesBelow_refl (n : ℕ) (h : Heap) : PreservesBelow n h h :=
  ⟨fun _ _ => rfl, fun _ _ => rfl⟩

/-- PreservesBelow composes. -/
theorem PreservesBelow_trans (n : ℕ) (h1 h2 h3 : Heap)
    (a : PreservesBelow n h1 h2) (b : PreservesBelow n h2 h3) :
    PreservesBelow n h1 h3 :=
  ⟨fun r hr => (b.1 r hr).trans (a.1 r hr),
    fun r hr => (b.2 r hr).trans (a.2 r hr)⟩

/-- Agreement below a bound restricts to smaller bounds. -/
theorem PreservesBelow_mono (m n : ℕ) (hmn : m ≤ n) (h h1 : Heap)
    (a : PreservesBelow n h h1) : PreservesBelow m h h1 :=
  ⟨fun r hr => a.1 r (lt_of_lt_of_le hr hmn),
    fun r hr => a.2 r (lt_of_lt_of_le hr hmn)⟩

/-- Writing an EV at or above the bound leaves everything below intact. -/
theorem setEV_preserves (n : ℕ) (h : Heap) (r : ℕ) (v : EV) (hr : n ≤ r) :
    PreservesBelow n h (h.setEV r v) := by
  refine ⟨fun x hx => ?_, fun x hx => rfl⟩
  simp only [Heap.setEV]
  rw [if_neg (by omega)]

/-- Writing a charger at or above the bound leaves everything below intact. -/
theorem setCharger_preserves (n : ℕ) (h : Heap) (r : ℕ) (v : ChargerObj)
    (hr : n ≤ r) : PreservesBelow n h (h.setCharger r v) := by
  refine ⟨fun x hx => rfl, fun x hx => ?_⟩
  simp only [Heap.setCharger]
  rw [if_neg (by omega)]

/-- Bumping the allocation pointer leaves both object stores intact. -/
theorem bumpNext_preserves (n : ℕ) (h : Heap) (k : ℕ) :
    PreservesBelow n h { h with next := k } :=
  ⟨fun _ _ => rfl, fun _ _ => rfl⟩

/-- Deep-copying the EVs of a charger writes only fresh references: the heap
below the old allocation pointer is intact, the pointer does not decrease,
the copies live between the old and new pointers, and no charger changes. -/
theorem copy_evs_spec (rs : List ℕ) (h : Heap) :
    PreservesBelow h.next h (copy_evs h rs).1 ∧
      h.next ≤ (copy_evs h rs).1.next ∧
      (∀ x ∈ (copy_evs h rs).2, h.next ≤ x ∧ x < (copy_evs h rs).1.next) ∧
      (∀ r, (copy_evs h rs).1.chargers r = h.chargers r) := by
  induction rs generalizing h with
  | nil =>
      exact ⟨PreservesBelow_refl _ _, le_refl _, by simp [copy_evs],
        fun _ => rfl⟩
  | cons r rs ih =>
      simp only [copy_evs]
      have hstep := ih (Heap.setEV { h with next := h.next + 1 } h.next
        (h.evs r))
      have hn1 : (Heap.setEV { h with next := h.next + 1 } h.next
          (h.evs r)).next = h.next + 1 := rfl
      have hpres1 : PreservesBelow h.next h
          (Heap.setEV { h with next := h.next + 1 } h.next (h.evs r)) :=
        PreservesBelow_trans _ _ _ _ (bumpNext_preserves _ _ _)
          (setEV_preserves h.next _ h.next (h.evs r) (le_refl _))
      refine ⟨?_, ?_, ?_, ?_⟩
      · exact PreservesBelow_trans _ _ _ _ hpres1
          (PreservesBelow_mono _ _ (by omega) _ _
            (hn1 ▸ hstep.1))
      · have := hstep.2.1
        omega
      · intro x hx
        rcases List.mem_cons.mp hx with h1 | h2
        · subst h1
          have := hstep.2.1
          constructor
          · exact le_refl _
          · omega
        · have := hstep.2.2.1 x h2
          constructor
          · omega
          · exact this.2
      · intro x
        exact (hstep.2.2.2 x).trans rfl

/-- Deep-copying one charger writes only fresh references; the copy's EV
references all sit at or above the old allocation pointer. -/
theorem copy_charger_spec (h : Heap) (r : ℕ) :
    PreservesBelow h.next h (copy_charger h r).1 ∧
      h.next ≤ (copy_charger h r).1.next ∧
      (h.next ≤ (copy_charger h r).2 ∧
        (copy_charger h r).2 < (copy_charger h r).1.next) ∧
      (∀ re ∈ ((copy_charger h r).1.chargers (copy_charger h r).2).ev_refs,
        h.next ≤ re) := by
  have hce := copy_evs_spec (h.chargers r).ev_refs h
  simp only [copy_charger]
  have hsc : PreservesBelow h.next
      (copy_evs h (h.chargers r).ev_refs).1
      (Heap.setCharger
        { (copy_evs h (h.chargers r).ev_refs).1 with
          next := (copy_evs h (h.chargers r).ev_refs).1.next + 1 }
        (copy_evs h (h.chargers r).ev_refs).1.next
        { h.chargers r with
          ev_refs := (copy_evs h (h.chargers r).ev_refs).2 }) :=
    PreservesBelow_trans _ _ _ _ (bumpNext_preserves _ _ _)
      (setCharger_preserves h.next _ _ _ hce.2.1)
  refine ⟨PreservesBelow_trans _ _ _ _ hce.1 hsc, ?_, ⟨hce.2.1, ?_⟩, ?_⟩
  · have := hce.2.1
    show h.next ≤ (copy_evs h (h.chargers r).ev_refs).1.next + 1
    omega
  · show (copy_evs h (h.chargers r).ev_refs).1.next <
      (copy_evs h (h.chargers r).ev_refs).1.next + 1
    omega
  · intro re hre
    have hread :
        (Heap.setCharger
            { (copy_evs h (h.chargers r).ev_refs).1 with
              next := (copy_evs h (h.chargers r).ev_refs).1.next + 1 }
            (copy_evs h (h.chargers r).ev_refs).1.next
            { h.chargers r with
              ev_refs := (copy_evs h (h.chargers r).ev_refs).2 }).chargers
          (copy_evs h (h.chargers r).ev_refs).1.next =
        { h.chargers r with
          ev_refs := (copy_evs h (h.chargers r).ev_refs).2 } := by
      simp [Heap.setCharger]
    rw [hread] at hre
    exact (hce.2.2.1 re hre).1

/-- Deep-copying the whole roster writes only fresh references; every copied
charger reference and all the EV references it carries sit at or above the
old allocation pointer. -/
theorem deepcopy_chargers_spec (rs : List ℕ) (h : Heap) :
    PreservesBelow h.next h (deepcopy_chargers h rs).1 ∧
      h.next ≤ (deepcopy_chargers h rs).1.next ∧
      ∀ c ∈ (deepcopy_chargers h rs).2,
        h.next ≤ c ∧
          ∀ re ∈ ((deepcopy_chargers h rs).1.chargers c).ev_refs,
            h.next ≤ re := by
  induction rs generalizing h with
  | nil =>
      exact ⟨PreservesBelow_refl _ _, le_refl _, by simp [deepcopy_chargers]⟩
  | cons r rs ih =>
      simp only [deepcopy_chargers]
      have hcc := copy_charger_spec h r
      have hrest := ih (copy_charger h r).1
      refine ⟨?_, ?_, ?_⟩
      · exact PreservesBelow_trans _ _ _ _ hcc.1
          (PreservesBelow_mono _ _ hcc.2.1 _ _ hrest.1)
      · have := hrest.2.1
        have := hcc.2.1
        omega
      · intro c hc
        rcases List.mem_cons.mp hc with h1 | h2
        · subst h1
          refine ⟨hcc.2.2.1.1, ?_⟩
          intro re hre
          have hsame : (deepcopy_chargers (copy_charger h r).1 rs).1.chargers
              (copy_charger h r).2 =
              (copy_charger h r).1.chargers (copy_charger h r).2 :=
            hrest.1.2 _ hcc.2.2.1.2
          rw [hsame] at hre
          exact hcc.2.2.2 re hre
        · have := hrest.2.2 c h2
          exact ⟨le_trans hcc.2.1 this.1,
            fun re hre => le_trans hcc.2.1 (this.2 re hre)⟩

/-- The charger dispatch loop writes only EV objects. -/
theorem charger_ev_loop_chargers_eq (refs : List ℕ)
    (steps : List (SimDateTime × ℚ)) (h : Heap) (total : List ℚ) :
    (charger_ev_loop h steps total refs).1.chargers = h.chargers := by
  induction refs generalizing h total with
  | nil => rfl
  | cons r rs ih =>
      simp only [charger_ev_loop]
      rw [ih]
      rfl

/-- The charger dispatch loop writes only at the EV references it visits. -/
theorem charger_ev_loop_preserves (n : ℕ) (refs : List ℕ)
    (steps : List (SimDateTime × ℚ)) (h : Heap) (total : List ℚ)
    (hrefs : ∀ x ∈ refs, n ≤ x) :
    PreservesBelow n h (charger_ev_loop h steps total refs).1 := by
  induction refs generalizing h total with
  | nil => exact PreservesBelow_refl _ _
  | cons r rs ih =>
      simp only [charger_ev_loop]
      exact PreservesBelow_trans _ _ _ _
        (setEV_preserves n h r _ (hrefs r (by simp)))
        (ih _ _ (fun x hx => hrefs x (by simp [hx])))

/-- Charger.charging_profile writes only the charger itself and its EVs. -/
theorem charger_charging_profile_preserves (n : ℕ) (h : Heap) (r : ℕ)
    (timesteps : List SimDateTime) (sc : Option (List ℚ)) (hr : n ≤ r)
    (hrefs : ∀ x ∈ (h.chargers r).ev_refs, n ≤ x) :
    PreservesBelow n h (charger_charging_profile h r timesteps sc).1 := by
  simp only [charger_charging_profile]
  exact PreservesBelow_trans _ _ _ _
    (charger_ev_loop_preserves n _ _ h _ hrefs)
    (setCharger_preserves n _ r _ hr)

/-- Charger.charging_profile rewrites only the recorder of the charger it
runs on, so every charger keeps its EV reference list. -/
theorem charger_charging_profile_ev_refs (h : Heap) (r : ℕ)
    (timesteps : List SimDateTime) (sc : Option (List ℚ)) :
    ∀ x, ((charger_charging_profile h r timesteps sc).1.chargers x).ev_refs =
      (h.chargers x).ev_refs := by
  intro x
  simp only [charger_charging_profile, Heap.setCharger]
  rw [charger_ev_loop_chargers_eq]
  by_cases hx : x = r
  · subst hx
    simp
  · simp [hx]

/-- The per-EV optimizer loop writes only the charger it serves and the EV
references it visits, and never changes any EV reference list. -/
theorem run_optimizer_ev_loop_preserves (n : ℕ) (res : List ℕ) (r : ℕ)
    (h : Heap) (site : List TSlot) (hr : n ≤ r)
    (hres : ∀ x ∈ res, n ≤ x)
    (hcur : ∀ x ∈ (h.chargers r).ev_refs, n ≤ x) :
    PreservesBelow n h (run_optimizer_ev_loop h r site res).1 ∧
      ∀ x, ((run_optimizer_ev_loop h r site res).1.chargers x).ev_refs =
        (h.chargers x).ev_refs := by
  induction res generalizing h site with
  | nil => exact ⟨PreservesBelow_refl _ _, fun _ => rfl⟩
  | cons re res ih =>
      simp only [run_optimizer_ev_loop]
      have hstep := charger_charging_profile_preserves n h r
        (site.map (fun s => s.dt))
        (some ((get_charging_profile_for_year site ((h.evs re).battery)
          (h.chargers r).max_output).map (fun q => q.2))) hr hcur
      have hrefs2 := charger_charging_profile_ev_refs h r
        (site.map (fun s => s.dt))
        (some ((get_charging_profile_for_year site ((h.evs re).battery)
          (h.chargers r).max_output).map (fun q => q.2)))
      have hnext := ih
        (charger_charging_profile h r (site.map (fun s => s.dt))
          (some ((get_charging_profile_for_year site ((h.evs re).battery)
            (h.chargers r).max_output).map (fun q => q.2)))).1
        (List.zipWith
          (fun s en => { s with site_energy := s.site_energy + en }) site
          (((charger_charging_profile h r (site.map (fun s => s.dt))
            (some ((get_charging_profile_for_year site ((h.evs re).battery)
              (h.chargers r).max_output).map (fun q => q.2)))).2).map
            (fun t => t * POWER_TO_ENERGY_FACTOR)))
        (fun x hx => hres x (by simp [hx]))
        (fun x hx => by rw [hrefs2 r] at hx; exact hcur x hx)
      exact ⟨PreservesBelow_trans _ _ _ _ hstep hnext.1,
        fun x => (hnext.2 x).trans (hrefs2 x)⟩

/-- run_optimizer writes only the roster chargers and their EVs. -/
theorem run_optimizer_heap_preserves (n : ℕ) (rs : List ℕ) (h : Heap)
    (site : List TSlot)
    (hrs : ∀ r ∈ rs, n ≤ r ∧ ∀ re ∈ (h.chargers r).ev_refs, n ≤ re) :
    PreservesBelow n h (run_optimizer_heap h site rs).1 := by
  induction rs generalizing h site with
  | nil => exact PreservesBelow_refl _ _
  | cons r rs ih =>
      simp only [run_optimizer_heap]
      have hhead := hrs r (by simp)
      have hstep := run_optimizer_ev_loop_preserves n
        ((h.chargers r).ev_refs) r h site hhead.1 hhead.2 hhead.2
      refine PreservesBelow_trans _ _ _ _ hstep.1 (ih _ _ ?_)
      intro r2 hr2
      have := hrs r2 (by simp [hr2])
      exact ⟨this.1, fun re hre => this.2 re ((hstep.2 r2) ▸ hre)⟩

/-- C8: run_control_method simulates a strategy only against a deep copy of
the charger roster: after the call, every charger object of the original
dict_of_chargers and every EV object it holds (battery state and recorder
contents) is unchanged, so strategies never share mutable battery or
recorder state. -/
theorem strategy_runs_on_deepcopy (S : Optimized_Sites) (h : Heap)
    (ct : SiteScheduleOptimzer)
    (hwf : ∀ r ∈ S.dict_of_chargers, r < h.next ∧
      ∀ re ∈ (h.chargers r).ev_refs, re < h.next) :
    ∀ r ∈ S.dict_of_chargers,
      (run_control_method S h ct).1.chargers r = h.chargers r ∧
        ∀ re ∈ (h.chargers r).ev_refs,
          (run_control_method S h ct).1.evs re = h.evs re := by
  intro r hr
  simp only [run_control_method]
  split_ifs with hguard
  · exact ⟨rfl, fun _ _ => rfl⟩
  · have S1 := deepcopy_chargers_spec S.dict_of_chargers h
    have S2 := run_optimizer_heap_preserves h.next
      (deepcopy_chargers h S.dict_of_chargers).2
      (deepcopy_chargers h S.dict_of_chargers).1
      (site_dataf_creator S ct) S1.2.2
    have hpres : PreservesBelow h.next h
        (run_optimizer_heap (deepcopy_chargers h S.dict_of_chargers).1
          (site_dataf_creator S ct)
          (deepcopy_chargers h S.dict_of_chargers).2).1 :=
      PreservesBelow_trans _ _ _ _ S1.1 S2
    exact ⟨hpres.2 r (hwf r hr).1,
      fun re hre => hpres.1 re ((hwf r hr).2 re hre)⟩

/-- C8 witness: the frame theorem applied to a two-object heap with one
roster charger (reference 1) holding one EV (reference 0), running the base
strategy. -/
theorem strategy_runs_on_deepcopy_witness :
    (run_control_method ⟨[], [1], none, none, none⟩
        ⟨fun _ => ⟨"E", mkBattery 0 1 1 {} 0, ⟨[]⟩⟩,
          fun _ => ⟨7, [0], ⟨[]⟩⟩, 2⟩
        SiteScheduleOptimzer.BASE_OPTIMIZER).1.chargers 1 =
      (⟨fun _ => ⟨"E", mkBattery 0 1 1 {} 0, ⟨[]⟩⟩,
        fun _ => ⟨7, [0], ⟨[]⟩⟩, 2⟩ : Heap).chargers 1 ∧
    (run_control_method ⟨[], [1], none, none, none⟩
        ⟨fun _ => ⟨"E", mkBattery 0 1 1 {} 0, ⟨[]⟩⟩,
          fun _ => ⟨7, [0], ⟨[]⟩⟩, 2⟩
        SiteScheduleOptimzer.BASE_OPTIMIZER).1.evs 0 =
      (⟨fun _ => ⟨"E", mkBattery 0 1 1 {} 0, ⟨[]⟩⟩,
        fun _ => ⟨7, [0], ⟨[]⟩⟩, 2⟩ : Heap).evs 0 := by
  have hmain := strategy_runs_on_deepcopy ⟨[], [1], none, none, none⟩
    ⟨fun _ => ⟨"E", mkBattery 0 1 1 {} 0, ⟨[]⟩⟩,
      fun _ => ⟨7, [0], ⟨[]⟩⟩, 2⟩
    SiteScheduleOptimzer.BASE_OPTIMIZER
    (by
      intro r hr
      simp at hr
      subst hr
      refine ⟨by decide, ?_⟩
      intro re hre
      simp at hre
      subst hre
      decide) 1 (by simp)
  exact ⟨hmain.1, hmain.2 0 (by simp)⟩

/-- run_control_method returns a present marker exactly when the strategy's
ranking series is present (the base strategy always runs). -/
theorem run_control_method_isSome (S : Optimized_Sites) (h : Heap) :
    ((run_control_method S h
        SiteScheduleOptimzer.BASE_OPTIMIZER).2.isSome = true) ∧
    ((run_control_method S h
        SiteScheduleOptimzer.EMISSION_OPTIMIZER).2.isSome =
      S.carbon_dataf.isSome) ∧
    ((run_control_method S h
        SiteScheduleOptimzer.PRICE_OPTIMIZER).2.isSome =
      S.price_dataf.isSome) ∧
    ((run_control_method S h SiteScheduleOptimzer.PV_OPTIMIZER).2.isSome =
      S.pv_dataf.isSome) := by
  refine ⟨?_, ?_, ?_, ?_⟩
  · simp only [run_control_method]
    rw [if_neg]
    · rfl
    · rintro (⟨_, hct⟩ | ⟨_, hct⟩ | ⟨_, hct⟩) <;> cases hct
  · cases hc : S.carbon_dataf with
    | none =>
        unfold run_control_method
        rw [if_pos (Or.inl ⟨hc, rfl⟩)]
        rfl
    | some c =>
        unfold run_control_method
        rw [if_neg]
        · rfl
        · rintro (⟨hnone, _⟩ | ⟨_, hct⟩ | ⟨_, hct⟩)
          · rw [hc] at hnone; cases hnone
          · cases hct
          · cases hct
  · cases hp : S.price_dataf with
    | none =>
        unfold run_control_method
        rw [if_pos (Or.inr (Or.inl ⟨hp, rfl⟩))]
        rfl
    | some c =>
        unfold run_control_method
        rw [if_neg]
        · rfl
        · rintro (⟨_, hct⟩ | ⟨hnone, _⟩ | ⟨_, hct⟩)
          · cases hct
          · rw [hp] at hnone; cases hnone
          · cases hct
  · cases hv : S.pv_dataf with
    | none =>
        unfold run_control_method
        rw [if_pos (Or.inr (Or.inr ⟨hv, rfl⟩))]
        rfl
    | some c =>
        unfold run_control_method
        rw [if_neg]
        · rfl
        · rintro (⟨_, hct⟩ | ⟨_, hct⟩ | ⟨hnone, _⟩)
          · cases hct
          · cases hct
          · rw [hv] at hnone; cases hnone

/-- C9: a strategy whose ranking series is None is skipped — the heap is
untouched and the absence marker None is returned instead of raising — while
run_all_control_methods still returns an entry for all four strategy labels,
present exactly for the base strategy and every strategy whose series was
supplied. -/
theorem missing_series_skipped (S : Optimized_Sites) (h : Heap) :
    (S.carbon_dataf = none →
      run_control_method S h SiteScheduleOptimzer.EMISSION_OPTIMIZER =
        (h, none)) ∧
    (S.price_dataf = none →
      run_control_method S h SiteScheduleOptimzer.PRICE_OPTIMIZER =
        (h, none)) ∧
    (S.pv_dataf = none →
      run_control_method S h SiteScheduleOptimzer.PV_OPTIMIZER =
        (h, none)) ∧
    ((run_all_control_methods S h).2.map Prod.fst =
      ["Basic", "Emission", "Price", "PV"]) ∧
    ((run_all_control_methods S h).2.map (fun p => p.2.isSome) =
      [true, S.carbon_dataf.isSome, S.price_dataf.isSome,
        S.pv_dataf.isSome]) := by
  refine ⟨?_, ?_, ?_, ?_, ?_⟩
  · intro hc
    unfold run_control_method
    rw [if_pos (Or.inl ⟨hc, rfl⟩)]
  · intro hp
    unfold run_control_method
    rw [if_pos (Or.inr (Or.inl ⟨hp, rfl⟩))]
  · intro hv
    unfold run_control_method
    rw [if_pos (Or.inr (Or.inr ⟨hv, rfl⟩))]
  · rfl
  · simp only [run_all_control_methods, List.map_cons, List.map_nil]
    rw [(run_control_method_isSome S h).1,
      (run_control_method_isSome S _).2.1,
      (run_control_method_isSome S _).2.2.1,
      (run_control_method_isSome S _).2.2.2]

/-- C9 witness: with the carbon series absent and the price and PV series
present, the emission strategy is skipped with marker None and the result
map still carries all four labels. -/
theorem missing_series_skipped_witness :
    run_control_method ⟨[], [], none, some [], some []⟩
        ⟨fun _ => ⟨"E", mkBattery 0 1 1 {} 0, ⟨[]⟩⟩,
          fun _ => ⟨7, [], ⟨[]⟩⟩, 0⟩
        SiteScheduleOptimzer.EMISSION_OPTIMIZER =
      (⟨fun _ => ⟨"E", mkBattery 0 1 1 {} 0, ⟨[]⟩⟩,
        fun _ => ⟨7, [], ⟨[]⟩⟩, 0⟩, none) ∧
    (run_all_control_methods ⟨[], [], none, some [], some []⟩
        ⟨fun _ => ⟨"E", mkBattery 0 1 1 {} 0, ⟨[]⟩⟩,
          fun _ => ⟨7, [], ⟨[]⟩⟩, 0⟩).2.map Prod.fst =
      ["Basic", "Emission", "Price", "PV"] :=
  ⟨(missing_series_skipped ⟨[], [], none, some [], some []⟩
      ⟨fun _ => ⟨"E", mkBattery 0 1 1 {} 0, ⟨[]⟩⟩,
        fun _ => ⟨7, [], ⟨[]⟩⟩, 0⟩).1 rfl,
    (missing_series_skipped ⟨[], [], none, some [], some []⟩
      ⟨fun _ => ⟨"E", mkBattery 0 1 1 {} 0, ⟨[]⟩⟩,
        fun _ => ⟨7, [], ⟨[]⟩⟩, 0⟩).2.2.2.1⟩

end EvModel
